import Mathlib

/-!
Verification of the cloud/tape backup job engine
(`src/api2/cloud/backup.rs`) against its natural-language specification.

The embedding translates the control flow of `backup_worker`,
`backup_snapshot`, `update_media_online_status` and their helper loops
into pure Lean functions.  External collaborators that are not part of
this repository (the `PoolWriter` / `MediaPool` state machine, the
datastore listing primitives, the changer hardware) are modelled from
the spec as an oracle of predetermined call results; the embedded
functions consume the oracle exactly in the order the Rust code issues
the corresponding calls, and additionally record every external call in
an event trace so that temporal claims can be stated.
-/

namespace CloudBackup

/-- Modelled from the spec: group identity is "type then id" (§4.2); the
`BackupGroup` type and its `Ord` instance live outside this repository. -/
structure GroupId where
  ty : String
  id : String
deriving DecidableEq, Repr

/-- Modelled from the spec: the comparator used by
`group_list.sort_unstable_by(|a, b| a.group().cmp(b.group()))` — compare
the backup type first, then the id. -/
def GroupId.le (a b : GroupId) : Bool :=
  decide (a.ty.data < b.ty.data ∨ (a.ty.data = b.ty.data ∧ a.id.data ≤ b.id.data))

/-- Identity of one snapshot: namespace, group, backup time. -/
structure SnapId where
  ns : String
  g : GroupId
  time : Nat
deriving DecidableEq, Repr

/-- Modelled from the spec: `print_ns_and_snapshot` (external) renders the
relative path of a snapshot from its namespace, group and time. -/
def relPath (s : SnapId) : String :=
  s.ns ++ "/" ++ s.g.ty ++ "/" ++ s.g.id ++ "/" ++ toString s.time

/-- Outcome of `snapshot.locked_reader()` as observed by `backup_snapshot`:
the reader opens, or the snapshot vanished (dir gone), or it exists but is
unreadable. -/
inductive ReadStatus
  | readable
  | vanished
  | openErr
deriving DecidableEq, Repr

/-- One snapshot of a group, together with the behaviour of the external
collaborators touched while transferring it: the chunk stream produced by
`spawn_chunk_reader_thread`, the per-call results of
`append_chunk_archive`, and whether the reader thread joins cleanly. -/
structure Snapshot where
  time : Nat
  finished : Bool
  read : ReadStatus
  spawn : Except String Unit
  chunks : List (Except String Unit)
  chunkResp : List (Except String (Bool × Nat))
  joinOk : Bool

/-- One backup group: its namespace, identity, and snapshot list as
returned by `group.list_backups()`. -/
structure Group where
  ns : String
  gid : GroupId
  snaps : List Snapshot

def mkSid (g : Group) (info : Snapshot) : SnapId :=
  { ns := g.ns, g := g.gid, time := info.time }

/-- Modelled from the spec: `TapeBackupJobSummary` (external) — list of
successfully transferred snapshot paths, used tapes, duration. -/
structure Summary where
  snapshotList : List String
  usedTapes : Option (List String)
  duration : Option Nat
deriving DecidableEq, Repr

/-- Modelled from the spec: `StoreProgress` (external, `pbs-datastore`) —
the four counters mutated by `backup_worker`. -/
structure StoreProgress where
  totalGroups : Nat
  doneGroups : Nat
  doneSnapshots : Nat
  groupSnapshots : Nat
deriving DecidableEq, Repr

def StoreProgress.make (total : Nat) : StoreProgress :=
  { totalGroups := total, doneGroups := 0, doneSnapshots := 0, groupSnapshots := 0 }

/-- Job-level errors.  Each `bail!` site of the embedded code gets its own
constructor; errors returned by external collaborators are wrapped in
`env`, so failure provenance is unambiguous. -/
inductive Err
  | env (s : String)
  | aborted
  | chunk (s : String)
  | readerJoin
  | snapshotSecondMedia
  | catalogSecondMedia
  | jobErrors
deriving DecidableEq, Repr

/-- Result of `backup_snapshot` (the `SnapshotBackupResult` enum). -/
inductive SnapResult
  | success
  | error
  | ignored
deriving DecidableEq, Repr

deriving instance DecidableEq for Except

/-- The trace of external calls issued by one run, in order.  Each entry
records the call and the result the environment returned for it. -/
inductive Event
  | loadMedia (r : Except Err Nat)
  | appendChunkArchive (r : Except Err Bool)
  | setMediaFull (uuid : Nat) (r : Except Err Unit)
  | appendSnapshotArchive (r : Except Err Bool)
  | appendCatalogArchive (r : Except Err Bool)
  | commit (r : Except Err Unit)
  | exportMediaSet (r : Except Err Unit)
  | ejectMedia (r : Except Err Unit)
  | snapshotBackup (s : SnapId)
  | snapshotDone (s : SnapId) (r : SnapResult)
  | skipSnapshot (s : SnapId)
deriving DecidableEq, Repr

/-- Modelled from the spec: the externally visible behaviour of the
`PoolWriter` session (not part of this repository).  Every fallible call
the orchestrator makes is answered from a predetermined response list,
consumed in call order; `contains` is the dedup index lookup
`contains_snapshot`. -/
structure PoolWriterOracle where
  initResp : Except String Unit
  loadResp : List (Except String Nat)
  fullResp : List (Except String Unit)
  snapResp : List (Except String Bool)
  catalogResp : List (Except String Bool)
  commitResp : Except String Unit
  exportResp : Except String Unit
  ejectResp : Except String Unit
  usedLabels : Except String (List String)
  contains : SnapId → Bool

/-- The run state threaded through the embedding: remaining oracle
responses, the event trace, the progress counters (with a log of every
value ever assigned to them), the mutable summary, and the `errors` /
`need_catalog` flags of `backup_worker`. -/
structure St where
  pw : PoolWriterOracle
  abort : Bool
  elapsed : Nat
  trace : List Event
  progress : StoreProgress
  progressLog : List StoreProgress
  summary : Summary
  errors : Bool
  needCatalog : Bool

/-- The `TapeBackupJobSetup` fields `backup_worker` reads (external type;
fields modelled from the spec).  The group filter is kept abstract — its
semantics (`apply_filters`) live outside this repository. -/
structure Setup where
  latestOnly : Option Bool
  exportMediaSet : Option Bool
  ejectMedia : Option Bool
  groupFilter : Option (GroupId → Bool)

/-- Environment of `update_media_online_status`: either no changer is
configured (or `media_changer` itself failed — the `if let Ok(Some(..))`
treats both alike), or a changer with the results of the three fallible
calls made on it. -/
inductive ChangerSetup
  | noChanger
  | changer (labelTexts : Except String (List String)) (invLoad : Except String Unit)
      (updateStatus : Except String Unit) (name : String)

def recordEvent (st : St) (e : Event) : St :=
  { st with trace := st.trace ++ [e] }

/-- Pop the next oracle response, wrapping environment errors in
`Err.env`.  An exhausted response list behaves as a failing call. -/
def takeResp {α : Type} (l : List (Except String α)) : Except Err α × List (Except String α) :=
  match l with
  | [] => (.error (.env "no response"), [])
  | .error e :: rest => (.error (.env e), rest)
  | .ok a :: rest => (.ok a, rest)

/-- `pool_writer.load_writable_media(worker)?` -/
def loadMedia (st : St) : Except Err Nat × St :=
  let p := takeResp st.pw.loadResp
  (p.1, recordEvent { st with pw := { st.pw with loadResp := p.2 } } (.loadMedia p.1))

/-- `pool_writer.set_media_status_full(&uuid)?` -/
def setFull (uuid : Nat) (st : St) : Except Err Unit × St :=
  let p := takeResp st.pw.fullResp
  (p.1, recordEvent { st with pw := { st.pw with fullResp := p.2 } } (.setMediaFull uuid p.1))

/-- `pool_writer.append_snapshot_archive(worker, &snapshot_reader)?` —
the `Bool` is the "fully written" flag. -/
def appendSnapArchive (st : St) : Except Err Bool × St :=
  let p := takeResp st.pw.snapResp
  (p.1, recordEvent { st with pw := { st.pw with snapResp := p.2 } } (.appendSnapshotArchive p.1))

/-- `pool_writer.append_catalog_archive(worker)?` -/
def appendCatArchive (st : St) : Except Err Bool × St :=
  let p := takeResp st.pw.catalogResp
  (p.1, recordEvent { st with pw := { st.pw with catalogResp := p.2 } } (.appendCatalogArchive p.1))

/-- `pool_writer.commit()?` -/
def doCommit (st : St) : Except Err Unit × St :=
  let r : Except Err Unit :=
    match st.pw.commitResp with
    | .ok _ => .ok ()
    | .error e => .error (.env e)
  (r, recordEvent st (.commit r))

/-- `pool_writer.export_media_set(worker)?` -/
def doExport (st : St) : Except Err Unit × St :=
  let r : Except Err Unit :=
    match st.pw.exportResp with
    | .ok _ => .ok ()
    | .error e => .error (.env e)
  (r, recordEvent st (.exportMediaSet r))

/-- `pool_writer.eject_media(worker)?` -/
def doEject (st : St) : Except Err Unit × St :=
  let r : Except Err Unit :=
    match st.pw.ejectResp with
    | .ok _ => .ok ()
    | .error e => .error (.env e)
  (r, recordEvent st (.ejectMedia r))

/-- Every mutation of the `StoreProgress` counters goes through here so
that the whole history of counter values is observable. -/
def setProgress (st : St) (p : StoreProgress) : St :=
  { st with progress := p, progressLog := st.progressLog ++ [p] }

/-- One iteration of the chunk-streaming loop of `backup_snapshot`
(lines 439–459), given the response `r` of the `append_chunk_archive`
call it may make: check abort, peek the stream, obtain a writable
medium, append (advancing the shared iterator by the amount the external
writer consumed), and on LEOM mark the medium full.  `inl` means the
loop exits with that result; `inr` carries the advanced stream into the
next iteration. -/
def chunkIter (r : Except String (Bool × Nat)) (chunks : List (Except String Unit)) (st : St) :
    (Except Err Unit × St) ⊕ (List (Except String Unit) × St) :=
  if st.abort then .inl (.error .aborted, st)
  else
    match chunks with
    | [] => .inl (.ok (), st)
    | .error e :: _ => .inl (.error (.chunk e), st)
    | .ok _ :: _ =>
      match loadMedia st with
      | (.error e, st1) => .inl (.error e, st1)
      | (.ok uuid, st1) =>
        if st1.abort then .inl (.error .aborted, st1)
        else
          match r with
          | .error e =>
            .inl (.error (.env e), recordEvent st1 (.appendChunkArchive (.error (.env e))))
          | .ok (leom, k) =>
            let st2 := recordEvent st1 (.appendChunkArchive (.ok leom))
            if leom then
              match setFull uuid st2 with
              | (.error e, st3) => .inl (.error e, st3)
              | (.ok _, st3) => .inr (chunks.drop k, st3)
            else .inr (chunks.drop k, st2)

/-- The iteration reached when the oracle has no response left for
`append_chunk_archive`: the call fails as an environment error. -/
def chunkIterNoResp (chunks : List (Except String Unit)) (st : St) : Except Err Unit × St :=
  if st.abort then (.error .aborted, st)
  else
    match chunks with
    | [] => (.ok (), st)
    | .error e :: _ => (.error (.chunk e), st)
    | .ok _ :: _ =>
      match loadMedia st with
      | (.error e, st1) => (.error e, st1)
      | (.ok _, st1) =>
        if st1.abort then (.error .aborted, st1)
        else
          (.error (.env "no response"),
            recordEvent st1 (.appendChunkArchive (.error (.env "no response"))))

/-- The chunk-streaming loop of `backup_snapshot` (lines 439–459): peek
the chunk stream; on a pending chunk obtain a writable medium, append as
much as fits, and on LEOM mark the medium full and repeat. -/
def chunkLoopAux : List (Except String (Bool × Nat)) → List (Except String Unit) → St →
    Except Err Unit × St
  | [], chunks, st => chunkIterNoResp chunks st
  | r :: cr2, chunks, st =>
    match chunkIter r chunks st with
    | .inl out => out
    | .inr (chunks2, st2) => chunkLoopAux cr2 chunks2 st2

/-- The trailing snapshot-archive phase of `backup_snapshot`
(lines 461–496): join the reader thread, load a writable medium, append
the snapshot archive; if it did not fit, mark the medium full, load a
fresh medium and retry the whole archive exactly once. -/
def archivePhase (info : Snapshot) (st : St) : Except Err SnapResult × St :=
  if info.joinOk = false then (.error .readerJoin, st)
  else if st.abort then (.error .aborted, st)
  else
    match loadMedia st with
    | (.error e, st1) => (.error e, st1)
    | (.ok uuid, st1) =>
      if st1.abort then (.error .aborted, st1)
      else
        match appendSnapArchive st1 with
        | (.error e, st2) => (.error e, st2)
        | (.ok done, st2) =>
          if done then (.ok .success, st2)
          else
            match setFull uuid st2 with
            | (.error e, st3) => (.error e, st3)
            | (.ok _, st3) =>
              if st3.abort then (.error .aborted, st3)
              else
                match loadMedia st3 with
                | (.error e, st4) => (.error e, st4)
                | (.ok _, st4) =>
                  match appendSnapArchive st4 with
                  | (.error e, st5) => (.error e, st5)
                  | (.ok done2, st5) =>
                    if done2 then (.ok .success, st5)
                    else (.error .snapshotSecondMedia, st5)

/-- `backup_snapshot` (lines 404–497). -/
def backupSnapshot (g : Group) (info : Snapshot) (st : St) : Except Err SnapResult × St :=
  let sid := mkSid g info
  let st0 := recordEvent st (.snapshotBackup sid)
  match info.read with
  | .vanished => (.ok .ignored, st0)
  | .openErr => (.ok .error, st0)
  | .readable =>
    match info.spawn with
    | .error e => (.error (.env e), st0)
    | .ok _ =>
      match chunkLoopAux info.chunkResp info.chunks st0 with
      | (.error e, st1) => (.error e, st1)
      | (.ok _, st1) => archivePhase info st1

/-- Outcome of handling one snapshot inside the group loop: skipped by the
`contains_snapshot` dedup check, or handed to `backup_snapshot`. -/
inductive StepResult
  | skipped
  | processed
deriving DecidableEq, Repr

/-- One iteration of the per-snapshot handling in `backup_worker`
(lines 291–310 / 316–336 minus the progress updates, which the caller
applies): the `contains_snapshot` skip, setting `need_catalog`, calling
`backup_snapshot` and folding its result into summary / `errors`. -/
def snapStep (g : Group) (info : Snapshot) (st : St) : Except Err StepResult × St :=
  let sid := mkSid g info
  if st.pw.contains sid then
    (.ok .skipped, recordEvent st (.skipSnapshot sid))
  else
    let st1 : St := { st with needCatalog := true }
    match backupSnapshot g info st1 with
    | (.error e, st2) => (.error e, st2)
    | (.ok res, st2) =>
      let st3 := recordEvent st2 (.snapshotDone sid res)
      let st4 : St :=
        match res with
        | .success =>
          { st3 with summary :=
              { st3.summary with snapshotList := st3.summary.snapshotList ++ [relPath sid] } }
        | .error => { st3 with errors := true }
        | .ignored => st3
      (.ok .processed, st4)

/-- Modelled from the spec: `BackupInfo::sort_list(&mut snapshot_list,
true)` (external) sorts the snapshots of one group oldest-first. -/
def sortSnapshots (l : List Snapshot) : List Snapshot :=
  l.insertionSort (fun a b => a.time ≤ b.time)

/-- The `for (snapshot_number, info) in snapshot_list.into_iter().enumerate()`
loop of the non-latest-only branch (lines 316–339). -/
def snapsLoop (g : Group) : List Snapshot → Nat → St → Except Err Unit × St
  | [], _, st => (.ok (), st)
  | info :: rest, n, st =>
    match snapStep g info st with
    | (.error e, st1) => (.error e, st1)
    | (.ok .skipped, st1) => snapsLoop g rest (n + 1) st1
    | (.ok .processed, st1) =>
      snapsLoop g rest (n + 1) (setProgress st1 { st1.progress with doneSnapshots := n + 1 })

/-- The latest-only branch of the group loop (lines 289–313): set the
group unit count to 1, pop the newest snapshot of the oldest-first
sorted list, and handle it. -/
def latestBranch (g : Group) (sorted : List Snapshot) (st : St) : Except Err Unit × St :=
  let sd := setProgress st { st.progress with groupSnapshots := 1 }
  match sorted.getLast? with
  | none => (.ok (), sd)
  | some info =>
    match snapStep g info sd with
    | (.error e, st1) => (.error e, st1)
    | (.ok .skipped, st1) => (.ok (), st1)
    | (.ok .processed, st1) =>
      (.ok (), setProgress st1 { st1.progress with doneSnapshots := 1 })

/-- The non-latest-only branch of the group loop (lines 314–340): record
the group unit count and run the per-snapshot loop. -/
def fullBranch (g : Group) (sorted : List Snapshot) (st : St) : Except Err Unit × St :=
  let sd := setProgress st { st.progress with groupSnapshots := sorted.length }
  snapsLoop g sorted 0 sd

/-- The body of the group loop of `backup_worker` (lines 264–341):
progress bookkeeping, filtering out unfinished snapshots, sorting
oldest-first, then either the latest-only branch (pop the newest) or the
full per-snapshot loop. -/
def processGroup (latestOnly : Bool) (groupNumber : Nat) (g : Group) (st : St) :
    Except Err Unit × St :=
  let sa := setProgress st { st.progress with doneGroups := groupNumber }
  let sb := setProgress sa { sa.progress with doneSnapshots := 0 }
  let sc := setProgress sb { sb.progress with groupSnapshots := 0 }
  let finished := g.snaps.filter (fun s => s.finished)
  if finished.isEmpty then (.ok (), sc)
  else
    let sorted := sortSnapshots finished
    if latestOnly then latestBranch g sorted sc
    else fullBranch g sorted sc

/-- The group loop itself (`for (group_number, group) in
group_list.into_iter().enumerate()`). -/
def groupsLoop (latestOnly : Bool) : List Group → Nat → St → Except Err Unit × St
  | [], _, st => (.ok (), st)
  | g :: rest, n, st =>
    match processGroup latestOnly n g st with
    | (.error e, st1) => (.error e, st1)
    | (.ok _, st1) => groupsLoop latestOnly rest (n + 1) st1

/-- Group selection of `backup_worker` (lines 222–238): collect the
groups of every namespace, sort by group identity, then apply the
optional group filter. -/
def sortGroups (l : List Group) : List Group :=
  l.insertionSort (fun a b => GroupId.le a.gid b.gid = true)

def selectGroups (filter : Option (GroupId → Bool)) (nsGroups : List (List Group)) :
    List Group :=
  let gl := sortGroups nsGroups.flatten
  match filter with
  | some f => gl.filter (fun g => f g.gid)
  | none => gl

/-- `update_media_online_status` (lines 388–402): a missing (or failing)
`media_changer` lookup yields `Ok(None)`; with a changer present, the
label-text query, the inventory load and the reconciliation are each
propagated with `?`. -/
def updateMediaOnlineStatus : ChangerSetup → Except Err (Option String)
  | .noChanger => .ok none
  | .changer lt inv upd name =>
    match lt with
    | .error e => .error (.env e)
    | .ok _ =>
      match inv with
      | .error e => .error (.env e)
      | .ok _ =>
        match upd with
        | .error e => .error (.env e)
        | .ok _ => .ok (some name)

/-- The catalog block of `backup_worker` (lines 345–362): if anything was
attempted, load a writable medium, append the catalog archive, and on a
not-done result mark the medium full and retry once on a fresh medium. -/
def catalogPhase (st : St) : Except Err Unit × St :=
  if st.needCatalog then
    match loadMedia st with
    | (.error e, st1) => (.error e, st1)
    | (.ok uuid, st1) =>
      match appendCatArchive st1 with
      | (.error e, st2) => (.error e, st2)
      | (.ok done, st2) =>
        if done then (.ok (), st2)
        else
          match setFull uuid st2 with
          | (.error e, st3) => (.error e, st3)
          | (.ok _, st3) =>
            match loadMedia st3 with
            | (.error e, st4) => (.error e, st4)
            | (.ok _, st4) =>
              match appendCatArchive st4 with
              | (.error e, st5) => (.error e, st5)
              | (.ok done2, st5) =>
                if done2 then (.ok (), st5) else (.error .catalogSecondMedia, st5)
  else (.ok (), st)

/-- Lines 364–368: export takes precedence over eject. -/
def finalActions (su : Setup) (st : St) : Except Err Unit × St :=
  if su.exportMediaSet.getD false then doExport st
  else if su.ejectMedia.getD false then doEject st
  else (.ok (), st)

/-- The tail of `backup_worker` (lines 343–384): commit, catalog block,
export/eject, the aggregate `errors` bail, then summary finalization
(used tapes and duration). -/
def workerTail (su : Setup) (st : St) : Except Err Unit × St :=
  match doCommit st with
  | (.error e, st1) => (.error e, st1)
  | (.ok _, st1) =>
    match catalogPhase st1 with
    | (.error e, st2) => (.error e, st2)
    | (.ok _, st2) =>
      match finalActions su st2 with
      | (.error e, st3) => (.error e, st3)
      | (.ok _, st3) =>
        if st3.errors then (.error .jobErrors, st3)
        else
          let st4 : St :=
            match st3.pw.usedLabels with
            | .ok tapes => { st3 with summary := { st3.summary with usedTapes := some tapes } }
            | .error _ => { st3 with summary := { st3.summary with usedTapes := none } }
          (.ok (), { st4 with summary := { st4.summary with duration := some st4.elapsed } })

/-- The initial run state: empty trace, default summary, no errors, no
catalog needed. -/
def initSt (pw : PoolWriterOracle) (abort : Bool) (elapsed : Nat) : St :=
  { pw := pw, abort := abort, elapsed := elapsed, trace := [],
    progress := StoreProgress.make 0, progressLog := [],
    summary := { snapshotList := [], usedTapes := none, duration := none },
    errors := false, needCatalog := false }

/-- `backup_worker` (lines 200–385): online-status refresh, pool-writer
construction, group selection, the group loop, then the tail phase. -/
def backupWorker (su : Setup) (ch : ChangerSetup) (nsGroups : List (List Group))
    (pw : PoolWriterOracle) (abort : Bool) (elapsed : Nat) : Except Err Unit × St :=
  let st := initSt pw abort elapsed
  match updateMediaOnlineStatus ch with
  | .error e => (.error e, st)
  | .ok _ =>
    match st.pw.initResp with
    | .error e => (.error (.env e), st)
    | .ok _ =>
      let groupList := selectGroups su.groupFilter nsGroups
      let st1 := setProgress st (StoreProgress.make groupList.length)
      match groupsLoop (su.latestOnly.getD false) groupList 0 st1 with
      | (.error e, st2) => (.error e, st2)
      | (.ok _, st2) => workerTail su st2

/-! ## Event classifiers and trace measures used by the claims -/

def isCommitEv : Event → Bool
  | .commit _ => true
  | _ => false

def isFinalActionEv : Event → Bool
  | .exportMediaSet _ => true
  | .ejectMedia _ => true
  | _ => false

def isArchiveWriteEv : Event → Bool
  | .appendChunkArchive _ => true
  | .appendSnapshotArchive _ => true
  | _ => false

def isCatalogWriteEv : Event → Bool
  | .appendCatalogArchive _ => true
  | _ => false

def isSnapshotCallEv : Event → Bool
  | .snapshotBackup _ => true
  | _ => false

/-- Calls issued by the media/archive primitives used inside
`backup_snapshot`. -/
def MechEv : Event → Bool
  | .loadMedia _ => true
  | .appendChunkArchive _ => true
  | .setMediaFull _ _ => true
  | .appendSnapshotArchive _ => true
  | _ => false

/-- Calls that may appear in the tail phase of `backup_worker` (commit,
catalog block, export/eject). -/
def TailEv : Event → Bool
  | .loadMedia _ => true
  | .setMediaFull _ _ => true
  | .appendCatalogArchive _ => true
  | .commit _ => true
  | .exportMediaSet _ => true
  | .ejectMedia _ => true
  | _ => false

/-- There is a catalog-archive write somewhere strictly after a commit
event. -/
def catalogAfterCommit (t : List Event) : Bool :=
  ((t.dropWhile (fun e => !isCommitEv e)).drop 1).any isCatalogWriteEv

/-- Pointwise comparison of all four `StoreProgress` counters. -/
def progLe (a b : StoreProgress) : Bool :=
  a.totalGroups ≤ b.totalGroups && a.doneGroups ≤ b.doneGroups &&
    a.doneSnapshots ≤ b.doneSnapshots && a.groupSnapshots ≤ b.groupSnapshots

/-- Successive values in a counter log never decrease, w.r.t. `le`. -/
def monotoneBy (le : StoreProgress → StoreProgress → Bool) : List StoreProgress → Bool
  | [] => true
  | [_] => true
  | a :: b :: r => le a b && monotoneBy le (b :: r)

/-- The global counters of `StoreProgress`: total groups and done
groups. -/
def globLe (a b : StoreProgress) : Prop :=
  a.totalGroups ≤ b.totalGroups ∧ a.doneGroups ≤ b.doneGroups

/-! ## Frame lemmas: what the media/archive primitives leave untouched -/

/-- Relation between a state and a later state reached through media and
archive primitive calls only: every field except the trace and the
consumed response lists is unchanged, and the appended trace entries are
all primitive-call events. -/
structure MechFrame (st st2 : St) : Prop where
  summary : st2.summary = st.summary
  errors : st2.errors = st.errors
  needCatalog : st2.needCatalog = st.needCatalog
  progress : st2.progress = st.progress
  progressLog : st2.progressLog = st.progressLog
  abort : st2.abort = st.abort
  elapsed : st2.elapsed = st.elapsed
  contains : st2.pw.contains = st.pw.contains
  tr : ∃ t, st2.trace = st.trace ++ t ∧ t.all MechEv = true

theorem MechFrame.refl_mech (st : St) : MechFrame st st :=
  ⟨rfl, rfl, rfl, rfl, rfl, rfl, rfl, rfl, ⟨[], by simp, rfl⟩⟩

theorem MechFrame.trans_mech {s1 s2 s3 : St} (h1 : MechFrame s1 s2) (h2 : MechFrame s2 s3) :
    MechFrame s1 s3 := by
  obtain ⟨t1, ht1, ha1⟩ := h1.tr
  obtain ⟨t2, ht2, ha2⟩ := h2.tr
  refine ⟨h2.summary.trans h1.summary, h2.errors.trans h1.errors,
    h2.needCatalog.trans h1.needCatalog, h2.progress.trans h1.progress,
    h2.progressLog.trans h1.progressLog, h2.abort.trans h1.abort,
    h2.elapsed.trans h1.elapsed, h2.contains.trans h1.contains,
    ⟨t1 ++ t2, ?_, ?_⟩⟩
  · rw [ht2, ht1, List.append_assoc]
  · simp only [List.all_append, ha1, ha2, Bool.and_self]

theorem recordEvent_mech (st : St) (e : Event) (h : MechEv e = true) :
    MechFrame st (recordEvent st e) :=
  ⟨rfl, rfl, rfl, rfl, rfl, rfl, rfl, rfl, ⟨[e], rfl, by simp [h]⟩⟩

theorem loadMedia_frame (st : St) : MechFrame st (loadMedia st).2 :=
  ⟨rfl, rfl, rfl, rfl, rfl, rfl, rfl, rfl,
    ⟨[.loadMedia (takeResp st.pw.loadResp).1], rfl, rfl⟩⟩

theorem setFull_frame (uuid : Nat) (st : St) : MechFrame st (setFull uuid st).2 :=
  ⟨rfl, rfl, rfl, rfl, rfl, rfl, rfl, rfl,
    ⟨[.setMediaFull uuid (takeResp st.pw.fullResp).1], rfl, rfl⟩⟩

theorem appendSnapArchive_frame (st : St) : MechFrame st (appendSnapArchive st).2 :=
  ⟨rfl, rfl, rfl, rfl, rfl, rfl, rfl, rfl,
    ⟨[.appendSnapshotArchive (takeResp st.pw.snapResp).1], rfl, rfl⟩⟩

/-- The state carried by either outcome of one chunk-loop iteration. -/
def iterSt : (Except Err Unit × St) ⊕ (List (Except String Unit) × St) → St
  | .inl out => out.2
  | .inr p => p.2

theorem chunkIter_frame (r : Except String (Bool × Nat)) (chunks : List (Except String Unit))
    (st : St) : MechFrame st (iterSt (chunkIter r chunks st)) := by
  unfold chunkIter
  split
  · exact MechFrame.refl_mech st
  · match chunks with
    | [] => exact MechFrame.refl_mech st
    | .error e :: _ => exact MechFrame.refl_mech st
    | .ok _ :: rest =>
      simp only
      rcases h : loadMedia st with ⟨r1, st1⟩
      have hf : MechFrame st st1 := by
        have := loadMedia_frame st
        rw [h] at this
        exact this
      match r1 with
      | .error e => exact hf
      | .ok uuid =>
        simp only
        split
        · exact hf
        · match r with
          | .error e =>
            exact hf.trans_mech (recordEvent_mech _ (.appendChunkArchive (.error (.env e))) rfl)
          | .ok (leom, k) =>
            simp only
            have hf2 : MechFrame st (recordEvent st1 (.appendChunkArchive (.ok leom))) :=
              hf.trans_mech (recordEvent_mech _ _ rfl)
            split
            · rcases h2 : setFull uuid (recordEvent st1 (.appendChunkArchive (.ok leom))) with
                ⟨r2, st3⟩
              have hf3 : MechFrame st st3 := by
                have := setFull_frame uuid (recordEvent st1 (.appendChunkArchive (.ok leom)))
                rw [h2] at this
                exact hf2.trans_mech this
              match r2 with
              | .error e => exact hf3
              | .ok _ => exact hf3
            · exact hf2

theorem chunkIterNoResp_frame (chunks : List (Except String Unit)) (st : St) :
    MechFrame st (chunkIterNoResp chunks st).2 := by
  unfold chunkIterNoResp
  split
  · exact MechFrame.refl_mech st
  · match chunks with
    | [] => exact MechFrame.refl_mech st
    | .error e :: _ => exact MechFrame.refl_mech st
    | .ok _ :: rest =>
      simp only
      rcases h : loadMedia st with ⟨r1, st1⟩
      have hf : MechFrame st st1 := by
        have := loadMedia_frame st
        rw [h] at this
        exact this
      match r1 with
      | .error e => exact hf
      | .ok uuid =>
        simp only
        split
        · exact hf
        · exact hf.trans_mech (recordEvent_mech _ (.appendChunkArchive (.error (.env "no response"))) rfl)

theorem chunkLoop_frame (cr : List (Except String (Bool × Nat))) :
    ∀ (chunks : List (Except String Unit)) (st : St),
      MechFrame st (chunkLoopAux cr chunks st).2 := by
  induction cr with
  | nil => exact fun chunks st => chunkIterNoResp_frame chunks st
  | cons r cr2 ih =>
    intro chunks st
    have hi := chunkIter_frame r chunks st
    rw [chunkLoopAux]
    rcases h : chunkIter r chunks st with out | ⟨chunks2, st2⟩
    · rw [h] at hi
      exact hi
    · rw [h] at hi
      exact MechFrame.trans_mech hi (ih chunks2 st2)

theorem archivePhase_frame (info : Snapshot) (st : St) :
    MechFrame st (archivePhase info st).2 := by
  unfold archivePhase
  split
  · exact MechFrame.refl_mech st
  · split
    · exact MechFrame.refl_mech st
    · rcases h1 : loadMedia st with ⟨r1, st1⟩
      have hf1 : MechFrame st st1 := by
        have := loadMedia_frame st
        rw [h1] at this
        exact this
      match r1 with
      | .error e => exact hf1
      | .ok uuid =>
        simp only
        split
        · exact hf1
        · rcases h2 : appendSnapArchive st1 with ⟨r2, st2⟩
          have hf2 : MechFrame st st2 := by
            have := appendSnapArchive_frame st1
            rw [h2] at this
            exact hf1.trans_mech this
          match r2 with
          | .error e => exact hf2
          | .ok done =>
            simp only
            split
            · exact hf2
            · rcases h3 : setFull uuid st2 with ⟨r3, st3⟩
              have hf3 : MechFrame st st3 := by
                have := setFull_frame uuid st2
                rw [h3] at this
                exact hf2.trans_mech this
              match r3 with
              | .error e => exact hf3
              | .ok _ =>
                simp only
                split
                · exact hf3
                · rcases h4 : loadMedia st3 with ⟨r4, st4⟩
                  have hf4 : MechFrame st st4 := by
                    have := loadMedia_frame st3
                    rw [h4] at this
                    exact hf3.trans_mech this
                  match r4 with
                  | .error e => exact hf4
                  | .ok _ =>
                    simp only
                    rcases h5 : appendSnapArchive st4 with ⟨r5, st5⟩
                    have hf5 : MechFrame st st5 := by
                      have := appendSnapArchive_frame st4
                      rw [h5] at this
                      exact hf4.trans_mech this
                    match r5 with
                    | .error e => exact hf5
                    | .ok done2 =>
                      simp only
                      split
                      · exact hf5
                      · exact hf5

/-- `backup_snapshot` records its entry log line and then only issues
media/archive primitive calls; everything else in the state is left
alone. -/
theorem backupSnapshot_frame (g : Group) (info : Snapshot) (st : St) :
    MechFrame (recordEvent st (.snapshotBackup (mkSid g info))) (backupSnapshot g info st).2 := by
  unfold backupSnapshot
  simp only
  match info.read with
  | .vanished => exact MechFrame.refl_mech _
  | .openErr => exact MechFrame.refl_mech _
  | .readable =>
    simp only
    match info.spawn with
    | .error e => exact MechFrame.refl_mech _
    | .ok _ =>
      simp only
      rcases h : chunkLoopAux info.chunkResp info.chunks
          (recordEvent st (.snapshotBackup (mkSid g info))) with ⟨r1, st1⟩
      have hf : MechFrame (recordEvent st (.snapshotBackup (mkSid g info))) st1 := by
        have := chunkLoop_frame info.chunkResp info.chunks
          (recordEvent st (.snapshotBackup (mkSid g info)))
        rw [h] at this
        exact this
      match r1 with
      | .error e => exact hf
      | .ok _ => exact hf.trans_mech (archivePhase_frame info st1)

/-! ## Loop-level frames and run invariants -/

def isSnapDoneEv : Event → Bool
  | .snapshotDone _ _ => true
  | _ => false

def isSuccessDoneEv : Event → Bool
  | .snapshotDone _ .success => true
  | _ => false

theorem not_snapDone_not_success {e : Event} (h : isSnapDoneEv e = false) :
    isSuccessDoneEv e = false := by
  cases e <;> simp_all [isSnapDoneEv, isSuccessDoneEv]

/-- Events that may be emitted while the group loop runs: everything
except commit, catalog writes and export/eject. -/
def LoopEv (e : Event) : Bool :=
  !(isCommitEv e) && !(isFinalActionEv e) && !(isCatalogWriteEv e)

theorem all_imp {t : List Event} {p q : Event → Bool} (h : ∀ e, p e = true → q e = true)
    (ht : t.all p = true) : t.all q = true := by
  simp only [List.all_eq_true] at *
  exact fun e he => h e (ht e he)

theorem mechEv_neutral (e : Event) (h : MechEv e = true) :
    (!(isSnapshotCallEv e) && !(isSnapDoneEv e)) = true := by
  cases e <;> simp_all [MechEv, isSnapshotCallEv, isSnapDoneEv]

theorem mechEv_loop (e : Event) (h : MechEv e = true) : LoopEv e = true := by
  cases e <;> simp_all [MechEv, LoopEv, isCommitEv, isFinalActionEv, isCatalogWriteEv]

/-- A state extension that does not touch the snapshot bookkeeping: the
`errors` flag, the summary snapshot list, `need_catalog` and the dedup
index are unchanged, and no snapshot-entry or snapshot-outcome events
are appended. -/
structure NeutralExt (st st2 : St) : Prop where
  errors : st2.errors = st.errors
  snapsList : st2.summary.snapshotList = st.summary.snapshotList
  needCatalog : st2.needCatalog = st.needCatalog
  contains : st2.pw.contains = st.pw.contains
  tr : ∃ t, st2.trace = st.trace ++ t ∧
      t.all (fun e => !(isSnapshotCallEv e) && !(isSnapDoneEv e)) = true

theorem NeutralExt.refl_neutral (st : St) : NeutralExt st st :=
  ⟨rfl, rfl, rfl, rfl, ⟨[], by simp, rfl⟩⟩

theorem NeutralExt.trans_neutral {s1 s2 s3 : St} (h1 : NeutralExt s1 s2) (h2 : NeutralExt s2 s3) :
    NeutralExt s1 s3 := by
  obtain ⟨t1, ht1, ha1⟩ := h1.tr
  obtain ⟨t2, ht2, ha2⟩ := h2.tr
  refine ⟨h2.errors.trans h1.errors, h2.snapsList.trans h1.snapsList,
    h2.needCatalog.trans h1.needCatalog, h2.contains.trans h1.contains, ⟨t1 ++ t2, ?_, ?_⟩⟩
  · rw [ht2, ht1, List.append_assoc]
  · simp only [List.all_append, ha1, ha2, Bool.and_self]

theorem MechFrame.neutral {st st2 : St} (h : MechFrame st st2) : NeutralExt st st2 := by
  obtain ⟨t, ht, ha⟩ := h.tr
  exact ⟨h.errors, by rw [h.summary], h.needCatalog, h.contains,
    ⟨t, ht, all_imp mechEv_neutral ha⟩⟩

/-- Invariants maintained by every phase of a run started from the
initial state: error outcomes raise the `errors` flag, success outcomes
are recorded in the summary, snapshots on the dedup index are never
entered, and `need_catalog` tracks whether any snapshot was attempted. -/
structure RunInv (st : St) : Prop where
  errFlag : ∀ sid, Event.snapshotDone sid .error ∈ st.trace → st.errors = true
  successRecorded : ∀ sid, Event.snapshotDone sid .success ∈ st.trace →
      relPath sid ∈ st.summary.snapshotList
  skipped : ∀ sid, st.pw.contains sid = true →
      Event.snapshotBackup sid ∉ st.trace ∧ ∀ r, Event.snapshotDone sid r ∉ st.trace
  catFlag : st.needCatalog = st.trace.any isSnapshotCallEv
  countEq : st.summary.snapshotList.length = st.trace.countP isSuccessDoneEv
  doneCall : st.trace.any isSnapDoneEv = true → st.trace.any isSnapshotCallEv = true

theorem RunInv.ofNeutral {st st2 : St} (h : NeutralExt st st2) (hi : RunInv st) : RunInv st2 := by
  obtain ⟨t, ht, ha⟩ := h.tr
  simp only [List.all_eq_true, Bool.and_eq_true, Bool.not_eq_true'] at ha
  constructor
  · intro sid hm
    rw [ht, List.mem_append] at hm
    rcases hm with hm | hm
    · rw [h.errors]
      exact hi.errFlag sid hm
    · have := (ha _ hm).2
      simp [isSnapDoneEv] at this
  · intro sid hm
    rw [ht, List.mem_append] at hm
    rcases hm with hm | hm
    · rw [h.snapsList]
      exact hi.successRecorded sid hm
    · have := (ha _ hm).2
      simp [isSnapDoneEv] at this
  · intro sid hc
    rw [h.contains] at hc
    obtain ⟨hb, hd⟩ := hi.skipped sid hc
    constructor
    · rw [ht, List.mem_append]
      rintro (hm | hm)
      · exact hb hm
      · have := (ha _ hm).1
        simp [isSnapshotCallEv] at this
    · intro r
      rw [ht, List.mem_append]
      rintro (hm | hm)
      · exact hd r hm
      · have := (ha _ hm).2
        simp [isSnapDoneEv] at this
  · rw [ht, List.any_append, h.needCatalog, hi.catFlag]
    have : t.any isSnapshotCallEv = false := by
      simp only [List.any_eq_false, Bool.not_eq_true]
      intro e he
      have := (ha _ he).1
      simp only [Bool.not_eq_true'] at this ⊢
      exact this
    rw [this, Bool.or_false]
  · rw [ht, h.snapsList, List.countP_append, hi.countEq]
    have : t.countP isSuccessDoneEv = 0 := by
      rw [List.countP_eq_zero]
      intro e he
      rw [not_snapDone_not_success (ha _ he).2]
      exact Bool.false_ne_true
    rw [this, Nat.add_zero]
  · intro hm
    rw [ht, List.any_append] at hm ⊢
    rcases Bool.or_eq_true_iff.mp hm with hp | hp
    · simp [hi.doneCall hp]
    · obtain ⟨e, he, hde⟩ := List.any_eq_true.mp hp
      rw [(ha e he).2] at hde
      cases hde

/-- What one pass of the group loop guarantees: only loop events are
appended, the summary snapshot list grows append-only, used-tapes and
duration are untouched, the `errors` flag is monotone, and the dedup
index is unchanged. -/
structure LoopFrame (st st2 : St) : Prop where
  tr : ∃ t, st2.trace = st.trace ++ t ∧ t.all LoopEv = true
  snaps : ∃ l, st2.summary.snapshotList = st.summary.snapshotList ++ l
  usedTapes : st2.summary.usedTapes = st.summary.usedTapes
  duration : st2.summary.duration = st.summary.duration
  errorsMono : st.errors = true → st2.errors = true
  contains : st2.pw.contains = st.pw.contains

theorem LoopFrame.refl_loop (st : St) : LoopFrame st st :=
  ⟨⟨[], by simp, rfl⟩, ⟨[], by simp⟩, rfl, rfl, fun h => h, rfl⟩

theorem LoopFrame.trans_loop {s1 s2 s3 : St} (h1 : LoopFrame s1 s2) (h2 : LoopFrame s2 s3) :
    LoopFrame s1 s3 := by
  obtain ⟨t1, ht1, ha1⟩ := h1.tr
  obtain ⟨t2, ht2, ha2⟩ := h2.tr
  obtain ⟨l1, hl1⟩ := h1.snaps
  obtain ⟨l2, hl2⟩ := h2.snaps
  refine ⟨⟨t1 ++ t2, ?_, ?_⟩, ⟨l1 ++ l2, ?_⟩, h2.usedTapes.trans h1.usedTapes,
    h2.duration.trans h1.duration, fun h => h2.errorsMono (h1.errorsMono h),
    h2.contains.trans h1.contains⟩
  · rw [ht2, ht1, List.append_assoc]
  · simp only [List.all_append, ha1, ha2, Bool.and_self]
  · rw [hl2, hl1, List.append_assoc]

theorem MechFrame.loopFrame {st st2 : St} (h : MechFrame st st2) : LoopFrame st st2 := by
  obtain ⟨t, ht, ha⟩ := h.tr
  exact ⟨⟨t, ht, all_imp mechEv_loop ha⟩, ⟨[], by rw [h.summary, List.append_nil]⟩,
    by rw [h.summary], by rw [h.summary], fun he => h.errors.trans he, h.contains⟩

theorem setProgress_loopFrame (st : St) (p : StoreProgress) : LoopFrame st (setProgress st p) :=
  ⟨⟨[], by simp [setProgress], rfl⟩, ⟨[], by simp [setProgress]⟩, rfl, rfl, fun h => h, rfl⟩

theorem setProgress_runInv {st : St} (p : StoreProgress) (hi : RunInv st) :
    RunInv (setProgress st p) :=
  ⟨hi.errFlag, hi.successRecorded, hi.skipped, hi.catFlag, hi.countEq, hi.doneCall⟩

theorem snapStep_loopFrame (g : Group) (info : Snapshot) (st : St) :
    LoopFrame st (snapStep g info st).2 := by
  unfold snapStep
  dsimp only
  split
  · exact ⟨⟨[.skipSnapshot (mkSid g info)], rfl, rfl⟩, ⟨[], by simp [recordEvent]⟩,
      rfl, rfl, fun h => h, rfl⟩
  · rcases h : backupSnapshot g info { st with needCatalog := true } with ⟨r1, st2⟩
    have hbf : MechFrame (recordEvent { st with needCatalog := true }
        (.snapshotBackup (mkSid g info))) st2 := by
      have := backupSnapshot_frame g info { st with needCatalog := true }
      rw [h] at this
      exact this
    obtain ⟨t, ht, ha⟩ := hbf.tr
    have htrace : st2.trace = st.trace ++ (Event.snapshotBackup (mkSid g info) :: t) := by
      simpa [recordEvent] using ht
    have hsum : st2.summary = st.summary := hbf.summary
    have herr : st2.errors = st.errors := hbf.errors
    have hcont : st2.pw.contains = st.pw.contains := hbf.contains
    have hallt : (Event.snapshotBackup (mkSid g info) :: t).all LoopEv = true := by
      simp only [List.all_cons, Bool.and_eq_true]
      exact ⟨rfl, all_imp mechEv_loop ha⟩
    match r1 with
    | .error e =>
      exact ⟨⟨_, htrace, hallt⟩, ⟨[], by rw [hsum, List.append_nil]⟩, by rw [hsum],
        by rw [hsum], fun hh => herr.trans hh, hcont⟩
    | .ok res =>
      simp only
      have htrace3 : ∀ ev, (recordEvent st2 ev).trace = st.trace ++
          ((Event.snapshotBackup (mkSid g info) :: t) ++ [ev]) := by
        intro ev
        simp [recordEvent, htrace]
      match res with
      | .success =>
        refine ⟨⟨_, htrace3 (.snapshotDone (mkSid g info) .success), ?_⟩,
          ⟨[relPath (mkSid g info)], by simp [recordEvent, hsum]⟩,
          by simp [recordEvent, hsum], by simp [recordEvent, hsum],
          fun hh => by simpa [recordEvent] using herr.trans hh, hcont⟩
        simp only [List.all_append, hallt, List.all_cons, List.all_nil, Bool.and_true,
          Bool.true_and]
        rfl
      | .error =>
        refine ⟨⟨_, htrace3 (.snapshotDone (mkSid g info) .error), ?_⟩,
          ⟨[], by simp [recordEvent, hsum]⟩,
          by simp [recordEvent, hsum], by simp [recordEvent, hsum],
          fun hh => rfl, hcont⟩
        simp only [List.all_append, hallt, List.all_cons, List.all_nil, Bool.and_true,
          Bool.true_and]
        rfl
      | .ignored =>
        refine ⟨⟨_, htrace3 (.snapshotDone (mkSid g info) .ignored), ?_⟩,
          ⟨[], by simp [recordEvent, hsum]⟩,
          by simp [recordEvent, hsum], by simp [recordEvent, hsum],
          fun hh => by simpa [recordEvent] using herr.trans hh, hcont⟩
        simp only [List.all_append, hallt, List.all_cons, List.all_nil, Bool.and_true,
          Bool.true_and]
        rfl

theorem snapStep_runInv (g : Group) (info : Snapshot) (st : St) (hi : RunInv st) :
    RunInv (snapStep g info st).2 := by
  unfold snapStep
  dsimp only
  split
  · rename_i hc
    have hn : NeutralExt st (recordEvent st (Event.skipSnapshot (mkSid g info))) :=
      ⟨rfl, rfl, rfl, rfl, ⟨[Event.skipSnapshot (mkSid g info)], rfl, rfl⟩⟩
    exact RunInv.ofNeutral hn hi
  · rename_i hc
    have hc2 : st.pw.contains (mkSid g info) = false := by
      revert hc
      cases st.pw.contains (mkSid g info) <;> simp
    rcases h : backupSnapshot g info { st with needCatalog := true } with ⟨r1, st2⟩
    have hbf : MechFrame (recordEvent { st with needCatalog := true }
        (.snapshotBackup (mkSid g info))) st2 := by
      have := backupSnapshot_frame g info { st with needCatalog := true }
      rw [h] at this
      exact this
    obtain ⟨t, ht, ha⟩ := hbf.tr
    have htrace : st2.trace = st.trace ++ (Event.snapshotBackup (mkSid g info) :: t) := by
      simpa [recordEvent] using ht
    have hanyt : st2.trace.any isSnapshotCallEv = true := by
      rw [htrace, List.any_append]
      simp [isSnapshotCallEv]
    have hneutral : ∀ e ∈ t, isSnapshotCallEv e = false ∧ isSnapDoneEv e = false := by
      intro e he
      have hm : MechEv e = true := by
        simp only [List.all_eq_true] at ha
        exact ha e he
      have := mechEv_neutral e hm
      simp only [Bool.and_eq_true, Bool.not_eq_true'] at this
      exact this
    have hinv2 : RunInv st2 := by
      constructor
      · intro sid hm
        rw [hbf.errors]
        rw [htrace, List.mem_append, List.mem_cons] at hm
        rcases hm with hm | hm | hm
        · exact hi.errFlag sid hm
        · cases hm
        · have := (hneutral _ hm).2
          simp [isSnapDoneEv] at this
      · intro sid hm
        rw [hbf.summary]
        rw [htrace, List.mem_append, List.mem_cons] at hm
        rcases hm with hm | hm | hm
        · exact hi.successRecorded sid hm
        · cases hm
        · have := (hneutral _ hm).2
          simp [isSnapDoneEv] at this
      · intro sid hcs
        rw [hbf.contains] at hcs
        have hcs2 : st.pw.contains sid = true := hcs
        obtain ⟨hb, hd⟩ := hi.skipped sid hcs2
        have hsid : sid ≠ mkSid g info := by
          intro hEq
          rw [hEq] at hcs2
          rw [hcs2] at hc2
          cases hc2
        constructor
        · rw [htrace, List.mem_append, List.mem_cons]
          rintro (hm | hm | hm)
          · exact hb hm
          · exact hsid (by cases hm; rfl)
          · have := (hneutral _ hm).1
            simp [isSnapshotCallEv] at this
        · intro r
          rw [htrace, List.mem_append, List.mem_cons]
          rintro (hm | hm | hm)
          · exact hd r hm
          · cases hm
          · have := (hneutral _ hm).2
            simp [isSnapDoneEv] at this
      · rw [hbf.needCatalog, hanyt]
        rfl
      · have hsum2 : st2.summary = st.summary := hbf.summary
        rw [hsum2, htrace, List.countP_append, hi.countEq]
        have h0 : (Event.snapshotBackup (mkSid g info) :: t).countP isSuccessDoneEv = 0 := by
          rw [List.countP_eq_zero]
          intro e he
          rw [List.mem_cons] at he
          rcases he with rfl | he
          · simp [isSuccessDoneEv]
          · rw [not_snapDone_not_success (hneutral e he).2]
            exact Bool.false_ne_true
        rw [h0, Nat.add_zero]
      · exact fun hm => hanyt
    have hsidOf : ∀ (sid : SnapId), st2.pw.contains sid = true → sid ≠ mkSid g info := by
      intro sid hcs hEq
      rw [hbf.contains] at hcs
      have hcs2 : st.pw.contains sid = true := hcs
      rw [hEq] at hcs2
      rw [hcs2] at hc2
      cases hc2
    match r1 with
    | .error e => exact hinv2
    | .ok res =>
      simp only
      have hmem3 : ∀ (sid : SnapId) (r : SnapResult),
          Event.snapshotDone sid r ∈ st2.trace ++ [Event.snapshotDone (mkSid g info) res] →
          Event.snapshotDone sid r ∈ st2.trace ∨ (sid = mkSid g info ∧ r = res) := by
        intro sid r hm
        rw [List.mem_append, List.mem_cons] at hm
        rcases hm with hm | hm | hm
        · exact Or.inl hm
        · cases hm
          exact Or.inr ⟨rfl, rfl⟩
        · cases hm
      have hmemB : ∀ (sid : SnapId),
          Event.snapshotBackup sid ∈ st2.trace ++ [Event.snapshotDone (mkSid g info) res] →
          Event.snapshotBackup sid ∈ st2.trace := by
        intro sid hm
        rw [List.mem_append, List.mem_cons] at hm
        rcases hm with hm | hm | hm
        · exact hm
        · cases hm
        · cases hm
      match res with
      | .success =>
        constructor
        · intro sid hm
          rcases hmem3 sid _ hm with hm | ⟨hEq, hr⟩
          · exact hinv2.errFlag sid hm
          · cases hr
        · intro sid hm
          simp only [recordEvent]
          rcases hmem3 sid _ hm with hm | ⟨hEq, _⟩
          · exact List.mem_append_left _ (hinv2.successRecorded sid hm)
          · rw [hEq]
            exact List.mem_append_right _ (by simp)
        · intro sid hcs
          obtain ⟨hb, hd⟩ := hinv2.skipped sid hcs
          refine ⟨fun hm => hb (hmemB sid hm), fun r hm => ?_⟩
          rcases hmem3 sid r hm with hm | ⟨hEq, _⟩
          · exact hd r hm
          · exact hsidOf sid hcs hEq
        · simp only [recordEvent, List.any_append, hanyt, hbf.needCatalog]
          rfl
        · show (st2.summary.snapshotList ++ [relPath (mkSid g info)]).length =
            (st2.trace ++ [Event.snapshotDone (mkSid g info) .success]).countP isSuccessDoneEv
          rw [List.length_append, List.countP_append, hinv2.countEq]
          rfl
        · intro hm
          simp [recordEvent, List.any_append, hanyt]
      | .error =>
        constructor
        · intro sid _
          rfl
        · intro sid hm
          rcases hmem3 sid _ hm with hm | ⟨hEq, hr⟩
          · exact hinv2.successRecorded sid hm
          · cases hr
        · intro sid hcs
          obtain ⟨hb, hd⟩ := hinv2.skipped sid hcs
          refine ⟨fun hm => hb (hmemB sid hm), fun r hm => ?_⟩
          rcases hmem3 sid r hm with hm | ⟨hEq, _⟩
          · exact hd r hm
          · exact hsidOf sid hcs hEq
        · simp only [recordEvent, List.any_append, hanyt, hbf.needCatalog]
          rfl
        · show st2.summary.snapshotList.length =
            (st2.trace ++ [Event.snapshotDone (mkSid g info) .error]).countP isSuccessDoneEv
          rw [List.countP_append, hinv2.countEq]
          rfl
        · intro hm
          simp [recordEvent, List.any_append, hanyt]
      | .ignored =>
        constructor
        · intro sid hm
          rcases hmem3 sid _ hm with hm | ⟨hEq, hr⟩
          · exact hinv2.errFlag sid hm
          · cases hr
        · intro sid hm
          rcases hmem3 sid _ hm with hm | ⟨hEq, hr⟩
          · exact hinv2.successRecorded sid hm
          · cases hr
        · intro sid hcs
          obtain ⟨hb, hd⟩ := hinv2.skipped sid hcs
          refine ⟨fun hm => hb (hmemB sid hm), fun r hm => ?_⟩
          rcases hmem3 sid r hm with hm | ⟨hEq, _⟩
          · exact hd r hm
          · exact hsidOf sid hcs hEq
        · simp only [recordEvent, List.any_append, hanyt, hbf.needCatalog]
          rfl
        · show st2.summary.snapshotList.length =
            (st2.trace ++ [Event.snapshotDone (mkSid g info) .ignored]).countP isSuccessDoneEv
          rw [List.countP_append, hinv2.countEq]
          rfl
        · intro hm
          simp [recordEvent, List.any_append, hanyt]

theorem snapsLoop_loopFrame (g : Group) (l : List Snapshot) :
    ∀ (n : Nat) (st : St), LoopFrame st (snapsLoop g l n st).2 := by
  induction l with
  | nil => exact fun n st => LoopFrame.refl_loop st
  | cons info rest ih =>
    intro n st
    rw [snapsLoop]
    rcases h : snapStep g info st with ⟨r1, st1⟩
    have hf : LoopFrame st st1 := by
      have := snapStep_loopFrame g info st
      rw [h] at this
      exact this
    match r1 with
    | .error e => exact hf
    | .ok .skipped => exact hf.trans_loop (ih (n + 1) st1)
    | .ok .processed =>
      exact hf.trans_loop ((setProgress_loopFrame st1 _).trans_loop (ih (n + 1) _))

theorem snapsLoop_runInv (g : Group) (l : List Snapshot) :
    ∀ (n : Nat) (st : St), RunInv st → RunInv (snapsLoop g l n st).2 := by
  induction l with
  | nil => exact fun n st hi => hi
  | cons info rest ih =>
    intro n st hi
    rw [snapsLoop]
    rcases h : snapStep g info st with ⟨r1, st1⟩
    have hi1 : RunInv st1 := by
      have := snapStep_runInv g info st hi
      rw [h] at this
      exact this
    match r1 with
    | .error e => exact hi1
    | .ok .skipped => exact ih (n + 1) st1 hi1
    | .ok .processed => exact ih (n + 1) _ (setProgress_runInv _ hi1)

theorem latestBranch_loopFrame (g : Group) (sorted : List Snapshot) (st : St) :
    LoopFrame st (latestBranch g sorted st).2 := by
  unfold latestBranch
  dsimp only
  rcases hL : sorted.getLast? with _ | info
  · exact setProgress_loopFrame st _
  · dsimp only
    rcases h : snapStep g info (setProgress st { st.progress with groupSnapshots := 1 }) with
      ⟨r1, st1⟩
    have hf : LoopFrame st st1 := by
      have hs := snapStep_loopFrame g info (setProgress st { st.progress with groupSnapshots := 1 })
      rw [h] at hs
      exact (setProgress_loopFrame st _).trans_loop hs
    match r1 with
    | .error e => exact hf
    | .ok .skipped => exact hf
    | .ok .processed => exact hf.trans_loop (setProgress_loopFrame _ _)

theorem latestBranch_runInv (g : Group) (sorted : List Snapshot) {st : St} (hi : RunInv st) :
    RunInv (latestBranch g sorted st).2 := by
  unfold latestBranch
  dsimp only
  rcases hL : sorted.getLast? with _ | info
  · exact setProgress_runInv _ hi
  · dsimp only
    rcases h : snapStep g info (setProgress st { st.progress with groupSnapshots := 1 }) with
      ⟨r1, st1⟩
    have hi1 : RunInv st1 := by
      have hs := snapStep_runInv g info
        (setProgress st { st.progress with groupSnapshots := 1 }) (setProgress_runInv _ hi)
      rw [h] at hs
      exact hs
    match r1 with
    | .error e => exact hi1
    | .ok .skipped => exact hi1
    | .ok .processed => exact setProgress_runInv _ hi1

theorem fullBranch_loopFrame (g : Group) (sorted : List Snapshot) (st : St) :
    LoopFrame st (fullBranch g sorted st).2 := by
  unfold fullBranch
  dsimp only
  exact (setProgress_loopFrame st _).trans_loop (snapsLoop_loopFrame g sorted 0 _)

theorem fullBranch_runInv (g : Group) (sorted : List Snapshot) {st : St} (hi : RunInv st) :
    RunInv (fullBranch g sorted st).2 := by
  unfold fullBranch
  dsimp only
  exact snapsLoop_runInv g sorted 0 _ (setProgress_runInv _ hi)

theorem processGroup_loopFrame (lo : Bool) (n : Nat) (g : Group) (st : St) :
    LoopFrame st (processGroup lo n g st).2 := by
  unfold processGroup
  dsimp only
  split
  · exact ((setProgress_loopFrame _ _).trans_loop (setProgress_loopFrame _ _)).trans_loop
      (setProgress_loopFrame _ _)
  · split
    · exact (((setProgress_loopFrame _ _).trans_loop (setProgress_loopFrame _ _)).trans_loop
        (setProgress_loopFrame _ _)).trans_loop (latestBranch_loopFrame g _ _)
    · exact (((setProgress_loopFrame _ _).trans_loop (setProgress_loopFrame _ _)).trans_loop
        (setProgress_loopFrame _ _)).trans_loop (fullBranch_loopFrame g _ _)

theorem processGroup_runInv (lo : Bool) (n : Nat) (g : Group) {st : St} (hi : RunInv st) :
    RunInv (processGroup lo n g st).2 := by
  unfold processGroup
  dsimp only
  split
  · exact setProgress_runInv _ (setProgress_runInv _ (setProgress_runInv _ hi))
  · split
    · exact latestBranch_runInv g _
        (setProgress_runInv _ (setProgress_runInv _ (setProgress_runInv _ hi)))
    · exact fullBranch_runInv g _
        (setProgress_runInv _ (setProgress_runInv _ (setProgress_runInv _ hi)))

theorem groupsLoop_loopFrame (lo : Bool) (l : List Group) :
    ∀ (n : Nat) (st : St), LoopFrame st (groupsLoop lo l n st).2 := by
  induction l with
  | nil => exact fun n st => LoopFrame.refl_loop st
  | cons g rest ih =>
    intro n st
    rw [groupsLoop]
    rcases h : processGroup lo n g st with ⟨r1, st1⟩
    have hf : LoopFrame st st1 := by
      have := processGroup_loopFrame lo n g st
      rw [h] at this
      exact this
    match r1 with
    | .error e => exact hf
    | .ok _ => exact hf.trans_loop (ih (n + 1) st1)

theorem groupsLoop_runInv (lo : Bool) (l : List Group) :
    ∀ (n : Nat) (st : St), RunInv st → RunInv (groupsLoop lo l n st).2 := by
  induction l with
  | nil => exact fun n st hi => hi
  | cons g rest ih =>
    intro n st hi
    rw [groupsLoop]
    rcases h : processGroup lo n g st with ⟨r1, st1⟩
    have hi1 : RunInv st1 := by
      have := processGroup_runInv lo n g hi
      rw [h] at this
      exact this
    match r1 with
    | .error e => exact hi1
    | .ok _ => exact ih (n + 1) st1 hi1

/-- Errors that the group loop can produce; `jobErrors` and
`catalogSecondMedia` arise only in the tail of `backup_worker`. -/
def loopErrOk : Err → Bool
  | .jobErrors => false
  | .catalogSecondMedia => false
  | _ => true

theorem takeResp_err {α : Type} {l : List (Except String α)} {e : Err} {rest}
    (h : takeResp l = (.error e, rest)) : loopErrOk e = true := by
  unfold takeResp at h
  match l with
  | [] =>
    simp only [Prod.mk.injEq, Except.error.injEq] at h
    obtain ⟨rfl, -⟩ := h
    rfl
  | .error s :: r =>
    simp only [Prod.mk.injEq, Except.error.injEq] at h
    obtain ⟨rfl, -⟩ := h
    rfl
  | .ok a :: r => simp at h

theorem loadMedia_err {st : St} {e : Err} {st2} (h : loadMedia st = (.error e, st2)) :
    loopErrOk e = true := by
  unfold loadMedia at h
  rcases ht : takeResp st.pw.loadResp with ⟨r, rest⟩
  rw [ht] at h
  dsimp only at h
  match r with
  | .ok a => simp at h
  | .error e2 =>
    simp only [Prod.mk.injEq, Except.error.injEq] at h
    obtain ⟨⟨rfl⟩, -⟩ := h
    exact takeResp_err ht

theorem setFull_err {uuid : Nat} {st : St} {e : Err} {st2}
    (h : setFull uuid st = (.error e, st2)) : loopErrOk e = true := by
  unfold setFull at h
  rcases ht : takeResp st.pw.fullResp with ⟨r, rest⟩
  rw [ht] at h
  dsimp only at h
  match r with
  | .ok a => simp at h
  | .error e2 =>
    simp only [Prod.mk.injEq, Except.error.injEq] at h
    obtain ⟨⟨rfl⟩, -⟩ := h
    exact takeResp_err ht

theorem appendSnapArchive_err {st : St} {e : Err} {st2}
    (h : appendSnapArchive st = (.error e, st2)) : loopErrOk e = true := by
  unfold appendSnapArchive at h
  rcases ht : takeResp st.pw.snapResp with ⟨r, rest⟩
  rw [ht] at h
  dsimp only at h
  match r with
  | .ok a => simp at h
  | .error e2 =>
    simp only [Prod.mk.injEq, Except.error.injEq] at h
    obtain ⟨⟨rfl⟩, -⟩ := h
    exact takeResp_err ht

theorem appendCatArchive_err {st : St} {e : Err} {st2}
    (h : appendCatArchive st = (.error e, st2)) : loopErrOk e = true := by
  unfold appendCatArchive at h
  rcases ht : takeResp st.pw.catalogResp with ⟨r, rest⟩
  rw [ht] at h
  dsimp only at h
  match r with
  | .ok a => simp at h
  | .error e2 =>
    simp only [Prod.mk.injEq, Except.error.injEq] at h
    obtain ⟨⟨rfl⟩, -⟩ := h
    exact takeResp_err ht

theorem chunkIter_err {r : Except String (Bool × Nat)} {chunks : List (Except String Unit)}
    {st : St} {e : Err} {stO : St}
    (h : chunkIter r chunks st = .inl (.error e, stO)) : loopErrOk e = true := by
  unfold chunkIter at h
  split at h
  · simp only [Sum.inl.injEq, Prod.mk.injEq, Except.error.injEq] at h
    obtain ⟨rfl, -⟩ := h
    rfl
  · match chunks with
    | [] => simp at h
    | .error s :: _ =>
      simp only [Sum.inl.injEq, Prod.mk.injEq, Except.error.injEq] at h
      obtain ⟨rfl, -⟩ := h
      rfl
    | .ok _ :: _ =>
      dsimp only at h
      rcases hl : loadMedia st with ⟨r1, st1⟩
      rw [hl] at h
      match r1 with
      | .error e1 =>
        simp only [Sum.inl.injEq, Prod.mk.injEq, Except.error.injEq] at h
        obtain ⟨rfl, -⟩ := h
        exact loadMedia_err hl
      | .ok uuid =>
        dsimp only at h
        split at h
        · simp only [Sum.inl.injEq, Prod.mk.injEq, Except.error.injEq] at h
          obtain ⟨rfl, -⟩ := h
          rfl
        · match r with
          | .error s =>
            simp only [Sum.inl.injEq, Prod.mk.injEq, Except.error.injEq] at h
            obtain ⟨rfl, -⟩ := h
            rfl
          | .ok (leom, k) =>
            dsimp only at h
            split at h
            · rcases hf : setFull uuid (recordEvent st1 (.appendChunkArchive (.ok leom))) with
                ⟨r2, st3⟩
              rw [hf] at h
              match r2 with
              | .error e2 =>
                simp only [Sum.inl.injEq, Prod.mk.injEq, Except.error.injEq] at h
                obtain ⟨rfl, -⟩ := h
                exact setFull_err hf
              | .ok _ => simp at h
            · simp at h

theorem chunkIterNoResp_err {chunks : List (Except String Unit)} {st : St} {e : Err} {stO : St}
    (h : chunkIterNoResp chunks st = (.error e, stO)) : loopErrOk e = true := by
  unfold chunkIterNoResp at h
  split at h
  · simp only [Prod.mk.injEq, Except.error.injEq] at h
    obtain ⟨rfl, -⟩ := h
    rfl
  · match chunks with
    | [] => simp at h
    | .error s :: _ =>
      simp only [Prod.mk.injEq, Except.error.injEq] at h
      obtain ⟨rfl, -⟩ := h
      rfl
    | .ok _ :: _ =>
      dsimp only at h
      rcases hl : loadMedia st with ⟨r1, st1⟩
      rw [hl] at h
      match r1 with
      | .error e1 =>
        simp only [Prod.mk.injEq, Except.error.injEq] at h
        obtain ⟨rfl, -⟩ := h
        exact loadMedia_err hl
      | .ok uuid =>
        dsimp only at h
        split at h
        · simp only [Prod.mk.injEq, Except.error.injEq] at h
          obtain ⟨rfl, -⟩ := h
          rfl
        · simp only [Prod.mk.injEq, Except.error.injEq] at h
          obtain ⟨rfl, -⟩ := h
          rfl

theorem chunkLoopAux_err {cr : List (Except String (Bool × Nat))} :
    ∀ {chunks : List (Except String Unit)} {st : St} {e : Err} {stO : St},
      chunkLoopAux cr chunks st = (.error e, stO) → loopErrOk e = true := by
  induction cr with
  | nil =>
    intro chunks st e stO h
    rw [chunkLoopAux] at h
    exact chunkIterNoResp_err h
  | cons r cr2 ih =>
    intro chunks st e stO h
    rw [chunkLoopAux] at h
    rcases hI : chunkIter r chunks st with out | ⟨c2, s2⟩
    · rw [hI] at h
      dsimp only at h
      rw [h] at hI
      exact chunkIter_err hI
    · rw [hI] at h
      exact ih h

theorem archivePhase_err {info : Snapshot} {st : St} {e : Err} {stO : St}
    (h : archivePhase info st = (.error e, stO)) : loopErrOk e = true := by
  unfold archivePhase at h
  split at h
  · simp only [Prod.mk.injEq, Except.error.injEq] at h
    obtain ⟨rfl, -⟩ := h
    rfl
  · split at h
    · simp only [Prod.mk.injEq, Except.error.injEq] at h
      obtain ⟨rfl, -⟩ := h
      rfl
    · rcases h1 : loadMedia st with ⟨r1, st1⟩
      rw [h1] at h
      match r1 with
      | .error e1 =>
        simp only [Prod.mk.injEq, Except.error.injEq] at h
        obtain ⟨rfl, -⟩ := h
        exact loadMedia_err h1
      | .ok uuid =>
        dsimp only at h
        split at h
        · simp only [Prod.mk.injEq, Except.error.injEq] at h
          obtain ⟨rfl, -⟩ := h
          rfl
        · rcases h2 : appendSnapArchive st1 with ⟨r2, st2⟩
          rw [h2] at h
          match r2 with
          | .error e2 =>
            simp only [Prod.mk.injEq, Except.error.injEq] at h
            obtain ⟨rfl, -⟩ := h
            exact appendSnapArchive_err h2
          | .ok done =>
            dsimp only at h
            split at h
            · simp at h
            · rcases h3 : setFull uuid st2 with ⟨r3, st3⟩
              rw [h3] at h
              match r3 with
              | .error e3 =>
                simp only [Prod.mk.injEq, Except.error.injEq] at h
                obtain ⟨rfl, -⟩ := h
                exact setFull_err h3
              | .ok _ =>
                dsimp only at h
                split at h
                · simp only [Prod.mk.injEq, Except.error.injEq] at h
                  obtain ⟨rfl, -⟩ := h
                  rfl
                · rcases h4 : loadMedia st3 with ⟨r4, st4⟩
                  rw [h4] at h
                  match r4 with
                  | .error e4 =>
                    simp only [Prod.mk.injEq, Except.error.injEq] at h
                    obtain ⟨rfl, -⟩ := h
                    exact loadMedia_err h4
                  | .ok _ =>
                    dsimp only at h
                    rcases h5 : appendSnapArchive st4 with ⟨r5, st5⟩
                    rw [h5] at h
                    match r5 with
                    | .error e5 =>
                      simp only [Prod.mk.injEq, Except.error.injEq] at h
                      obtain ⟨rfl, -⟩ := h
                      exact appendSnapArchive_err h5
                    | .ok done2 =>
                      dsimp only at h
                      split at h
                      · simp at h
                      · simp only [Prod.mk.injEq, Except.error.injEq] at h
                        obtain ⟨rfl, -⟩ := h
                        rfl

theorem backupSnapshot_err {g : Group} {info : Snapshot} {st : St} {e : Err} {stO : St}
    (h : backupSnapshot g info st = (.error e, stO)) : loopErrOk e = true := by
  unfold backupSnapshot at h
  dsimp only at h
  match hr : info.read with
  | .vanished => rw [hr] at h; simp at h
  | .openErr => rw [hr] at h; simp at h
  | .readable =>
    rw [hr] at h
    dsimp only at h
    match hs : info.spawn with
    | .error s =>
      rw [hs] at h
      simp only [Prod.mk.injEq, Except.error.injEq] at h
      obtain ⟨rfl, -⟩ := h
      rfl
    | .ok _ =>
      rw [hs] at h
      dsimp only at h
      rcases hc : chunkLoopAux info.chunkResp info.chunks
          (recordEvent st (.snapshotBackup (mkSid g info))) with ⟨r1, st1⟩
      rw [hc] at h
      match r1 with
      | .error e1 =>
        simp only [Prod.mk.injEq, Except.error.injEq] at h
        obtain ⟨rfl, -⟩ := h
        exact chunkLoopAux_err hc
      | .ok _ =>
        dsimp only at h
        exact archivePhase_err h

theorem snapStep_err {g : Group} {info : Snapshot} {st : St} {e : Err} {stO : St}
    (h : snapStep g info st = (.error e, stO)) : loopErrOk e = true := by
  unfold snapStep at h
  dsimp only at h
  split at h
  · simp at h
  · rcases hb : backupSnapshot g info { st with needCatalog := true } with ⟨r1, st1⟩
    rw [hb] at h
    match r1 with
    | .error e1 =>
      simp only [Prod.mk.injEq, Except.error.injEq] at h
      obtain ⟨rfl, -⟩ := h
      exact backupSnapshot_err hb
    | .ok res => dsimp only at h; simp at h

theorem snapsLoop_err {g : Group} {l : List Snapshot} :
    ∀ {n : Nat} {st : St} {e : Err} {stO : St},
      snapsLoop g l n st = (.error e, stO) → loopErrOk e = true := by
  induction l with
  | nil =>
    intro n st e stO h
    rw [snapsLoop] at h
    simp at h
  | cons info rest ih =>
    intro n st e stO h
    rw [snapsLoop] at h
    rcases hs : snapStep g info st with ⟨r1, st1⟩
    rw [hs] at h
    match r1 with
    | .error e1 =>
      simp only [Prod.mk.injEq, Except.error.injEq] at h
      obtain ⟨rfl, -⟩ := h
      exact snapStep_err hs
    | .ok .skipped => exact ih h
    | .ok .processed => exact ih h

theorem latestBranch_err {g : Group} {sorted : List Snapshot} {st : St} {e : Err} {stO : St}
    (h : latestBranch g sorted st = (.error e, stO)) : loopErrOk e = true := by
  unfold latestBranch at h
  dsimp only at h
  rcases hL : sorted.getLast? with _ | info
  · rw [hL] at h
    simp at h
  · rw [hL] at h
    dsimp only at h
    rcases hs : snapStep g info (setProgress st { st.progress with groupSnapshots := 1 }) with
      ⟨r1, st1⟩
    rw [hs] at h
    match r1 with
    | .error e1 =>
      simp only [Prod.mk.injEq, Except.error.injEq] at h
      obtain ⟨rfl, -⟩ := h
      exact snapStep_err hs
    | .ok .skipped => simp at h
    | .ok .processed => simp at h

theorem fullBranch_err {g : Group} {sorted : List Snapshot} {st : St} {e : Err} {stO : St}
    (h : fullBranch g sorted st = (.error e, stO)) : loopErrOk e = true := by
  unfold fullBranch at h
  exact snapsLoop_err h

theorem processGroup_err {lo : Bool} {n : Nat} {g : Group} {st : St} {e : Err} {stO : St}
    (h : processGroup lo n g st = (.error e, stO)) : loopErrOk e = true := by
  unfold processGroup at h
  dsimp only at h
  split at h
  · simp at h
  · split at h
    · exact latestBranch_err h
    · exact fullBranch_err h

theorem groupsLoop_err {lo : Bool} {l : List Group} :
    ∀ {n : Nat} {st : St} {e : Err} {stO : St},
      groupsLoop lo l n st = (.error e, stO) → loopErrOk e = true := by
  induction l with
  | nil =>
    intro n st e stO h
    rw [groupsLoop] at h
    simp at h
  | cons g rest ih =>
    intro n st e stO h
    rw [groupsLoop] at h
    rcases hp : processGroup lo n g st with ⟨r1, st1⟩
    rw [hp] at h
    match r1 with
    | .error e1 =>
      simp only [Prod.mk.injEq, Except.error.injEq] at h
      obtain ⟨rfl, -⟩ := h
      exact processGroup_err hp
    | .ok _ => exact ih h

/-! ## Exact output shapes of the primitives, and the tail phase -/

theorem loadMedia_out {st : St} {r : Except Err Nat} {st1 : St} (h : loadMedia st = (r, st1)) :
    st1 = recordEvent { st with pw := { st.pw with loadResp := (takeResp st.pw.loadResp).2 } }
      (.loadMedia r) := by
  unfold loadMedia at h
  cases h
  rfl

theorem setFull_out {uuid : Nat} {st : St} {r : Except Err Unit} {st1 : St}
    (h : setFull uuid st = (r, st1)) :
    st1 = recordEvent { st with pw := { st.pw with fullResp := (takeResp st.pw.fullResp).2 } }
      (.setMediaFull uuid r) := by
  unfold setFull at h
  cases h
  rfl

theorem appendCatArchive_out {st : St} {r : Except Err Bool} {st1 : St}
    (h : appendCatArchive st = (r, st1)) :
    st1 = recordEvent { st with pw :=
        { st.pw with catalogResp := (takeResp st.pw.catalogResp).2 } }
      (.appendCatalogArchive r) := by
  unfold appendCatArchive at h
  cases h
  rfl

theorem doCommit_out {st : St} {r : Except Err Unit} {st1 : St} (h : doCommit st = (r, st1)) :
    st1 = recordEvent st (.commit r) := by
  unfold doCommit at h
  cases h
  rfl

theorem doExport_out {st : St} {r : Except Err Unit} {st1 : St} (h : doExport st = (r, st1)) :
    st1 = recordEvent st (.exportMediaSet r) := by
  unfold doExport at h
  cases h
  rfl

theorem doEject_out {st : St} {r : Except Err Unit} {st1 : St} (h : doEject st = (r, st1)) :
    st1 = recordEvent st (.ejectMedia r) := by
  unfold doEject at h
  cases h
  rfl

/-- Calls issued by the catalog block. -/
def CatEv : Event → Bool
  | .loadMedia _ => true
  | .setMediaFull _ _ => true
  | .appendCatalogArchive _ => true
  | _ => false

/-- Behaviour of the catalog block: everything except the trace and the
consumed responses is untouched; it does nothing when `need_catalog` is
unset, and on success with `need_catalog` set, a catalog-archive write
is on the trace. -/
structure CatSpec (st : St) (out : Except Err Unit × St) : Prop where
  summary : out.2.summary = st.summary
  errors : out.2.errors = st.errors
  needCatalog : out.2.needCatalog = st.needCatalog
  progress : out.2.progress = st.progress
  progressLog : out.2.progressLog = st.progressLog
  contains : out.2.pw.contains = st.pw.contains
  tr : ∃ t, out.2.trace = st.trace ++ t ∧ t.all CatEv = true
  noNeed : st.needCatalog = false → out = (.ok (), st)
  okCat : out.1 = .ok () → st.needCatalog = true → out.2.trace.any isCatalogWriteEv = true
  resErr : ∀ e2, out.1 = .error e2 → loopErrOk e2 = true ∨ e2 = .catalogSecondMedia

theorem loadMedia_fields {st : St} {r : Except Err Nat} {st1 : St}
    (h : loadMedia st = (r, st1)) :
    st1.trace = st.trace ++ [.loadMedia r] ∧ st1.summary = st.summary ∧
    st1.errors = st.errors ∧ st1.needCatalog = st.needCatalog ∧
    st1.progress = st.progress ∧ st1.progressLog = st.progressLog ∧
    st1.pw.contains = st.pw.contains := by
  have he := loadMedia_out h
  subst he
  exact ⟨rfl, rfl, rfl, rfl, rfl, rfl, rfl⟩

theorem setFull_fields {uuid : Nat} {st : St} {r : Except Err Unit} {st1 : St}
    (h : setFull uuid st = (r, st1)) :
    st1.trace = st.trace ++ [.setMediaFull uuid r] ∧ st1.summary = st.summary ∧
    st1.errors = st.errors ∧ st1.needCatalog = st.needCatalog ∧
    st1.progress = st.progress ∧ st1.progressLog = st.progressLog ∧
    st1.pw.contains = st.pw.contains := by
  have he := setFull_out h
  subst he
  exact ⟨rfl, rfl, rfl, rfl, rfl, rfl, rfl⟩

theorem appendCatArchive_fields {st : St} {r : Except Err Bool} {st1 : St}
    (h : appendCatArchive st = (r, st1)) :
    st1.trace = st.trace ++ [.appendCatalogArchive r] ∧ st1.summary = st.summary ∧
    st1.errors = st.errors ∧ st1.needCatalog = st.needCatalog ∧
    st1.progress = st.progress ∧ st1.progressLog = st.progressLog ∧
    st1.pw.contains = st.pw.contains := by
  have he := appendCatArchive_out h
  subst he
  exact ⟨rfl, rfl, rfl, rfl, rfl, rfl, rfl⟩

theorem doCommit_fields {st : St} {r : Except Err Unit} {st1 : St} (h : doCommit st = (r, st1)) :
    st1.trace = st.trace ++ [.commit r] ∧ st1.summary = st.summary ∧
    st1.errors = st.errors ∧ st1.needCatalog = st.needCatalog ∧
    st1.progress = st.progress ∧ st1.progressLog = st.progressLog ∧
    st1.pw.contains = st.pw.contains := by
  have he := doCommit_out h
  subst he
  exact ⟨rfl, rfl, rfl, rfl, rfl, rfl, rfl⟩

theorem doExport_fields {st : St} {r : Except Err Unit} {st1 : St} (h : doExport st = (r, st1)) :
    st1.trace = st.trace ++ [.exportMediaSet r] ∧ st1.summary = st.summary ∧
    st1.errors = st.errors ∧ st1.needCatalog = st.needCatalog ∧
    st1.progress = st.progress ∧ st1.progressLog = st.progressLog ∧
    st1.pw.contains = st.pw.contains := by
  have he := doExport_out h
  subst he
  exact ⟨rfl, rfl, rfl, rfl, rfl, rfl, rfl⟩

theorem doEject_fields {st : St} {r : Except Err Unit} {st1 : St} (h : doEject st = (r, st1)) :
    st1.trace = st.trace ++ [.ejectMedia r] ∧ st1.summary = st.summary ∧
    st1.errors = st.errors ∧ st1.needCatalog = st.needCatalog ∧
    st1.progress = st.progress ∧ st1.progressLog = st.progressLog ∧
    st1.pw.contains = st.pw.contains := by
  have he := doEject_out h
  subst he
  exact ⟨rfl, rfl, rfl, rfl, rfl, rfl, rfl⟩

theorem catalogPhase_spec (st : St) : CatSpec st (catalogPhase st) := by
  unfold catalogPhase
  split
  · rename_i hnc
    have hcontra : st.needCatalog = false → False := by
      intro hf
      rw [hf] at hnc
      cases hnc
    rcases h1 : loadMedia st with ⟨r1, st1⟩
    obtain ⟨T1, S1, E1, N1, P1, L1, C1⟩ := loadMedia_fields h1
    match r1 with
    | .error e =>
      dsimp only
      exact ⟨S1, E1, N1, P1, L1, C1, ⟨[.loadMedia (.error e)], T1, rfl⟩,
        fun hf => absurd hf (fun hf2 => hcontra hf2), fun hk => absurd hk (by simp),
        fun e2 hEq => by cases hEq; exact Or.inl (loadMedia_err h1)⟩
    | .ok uuid =>
      dsimp only
      rcases h2 : appendCatArchive st1 with ⟨r2, st2⟩
      obtain ⟨T2, S2, E2, N2, P2, L2, C2⟩ := appendCatArchive_fields h2
      match r2 with
      | .error e =>
        dsimp only
        refine ⟨S2.trans S1, E2.trans E1, N2.trans N1, P2.trans P1, L2.trans L1, C2.trans C1,
          ⟨[.loadMedia (.ok uuid), .appendCatalogArchive (.error e)], ?_, rfl⟩,
          fun hf => absurd hf (fun hf2 => hcontra hf2), fun hk => absurd hk (by simp),
          fun e2 hEq => by cases hEq; exact Or.inl (appendCatArchive_err h2)⟩
        rw [T2, T1]
        simp
      | .ok done =>
        dsimp only
        split
        · refine ⟨S2.trans S1, E2.trans E1, N2.trans N1, P2.trans P1, L2.trans L1, C2.trans C1,
            ⟨[.loadMedia (.ok uuid), .appendCatalogArchive (.ok done)], ?_, rfl⟩,
            fun hf => absurd hf (fun hf2 => hcontra hf2), fun _ _ => ?_,
            fun e2 hEq => nomatch hEq⟩
          · rw [T2, T1]
            simp
          · rw [T2, T1]
            simp [List.any_append, isCatalogWriteEv]
        · rcases h3 : setFull uuid st2 with ⟨r3, st3⟩
          obtain ⟨T3, S3, E3, N3, P3, L3, C3⟩ := setFull_fields h3
          match r3 with
          | .error e =>
            dsimp only
            refine ⟨S3.trans (S2.trans S1), E3.trans (E2.trans E1), N3.trans (N2.trans N1),
              P3.trans (P2.trans P1), L3.trans (L2.trans L1), C3.trans (C2.trans C1),
              ⟨[.loadMedia (.ok uuid), .appendCatalogArchive (.ok done),
                .setMediaFull uuid (.error e)], ?_, rfl⟩,
              fun hf => absurd hf (fun hf2 => hcontra hf2), fun hk => absurd hk (by simp),
              fun e2 hEq => by cases hEq; exact Or.inl (setFull_err h3)⟩
            rw [T3, T2, T1]
            simp
          | .ok _ =>
            dsimp only
            rcases h4 : loadMedia st3 with ⟨r4, st4⟩
            obtain ⟨T4, S4, E4, N4, P4, L4, C4⟩ := loadMedia_fields h4
            match r4 with
            | .error e =>
              dsimp only
              refine ⟨S4.trans (S3.trans (S2.trans S1)), E4.trans (E3.trans (E2.trans E1)),
                N4.trans (N3.trans (N2.trans N1)), P4.trans (P3.trans (P2.trans P1)),
                L4.trans (L3.trans (L2.trans L1)), C4.trans (C3.trans (C2.trans C1)),
                ⟨[.loadMedia (.ok uuid), .appendCatalogArchive (.ok done),
                  .setMediaFull uuid (.ok ()), .loadMedia (.error e)], ?_, rfl⟩,
                fun hf => absurd hf (fun hf2 => hcontra hf2), fun hk => absurd hk (by simp),
                fun e2 hEq => by cases hEq; exact Or.inl (loadMedia_err h4)⟩
              rw [T4, T3, T2, T1]
              simp
            | .ok u2 =>
              dsimp only
              rcases h5 : appendCatArchive st4 with ⟨r5, st5⟩
              obtain ⟨T5, S5, E5, N5, P5, L5, C5⟩ := appendCatArchive_fields h5
              match r5 with
              | .error e =>
                dsimp only
                refine ⟨S5.trans (S4.trans (S3.trans (S2.trans S1))),
                  E5.trans (E4.trans (E3.trans (E2.trans E1))),
                  N5.trans (N4.trans (N3.trans (N2.trans N1))),
                  P5.trans (P4.trans (P3.trans (P2.trans P1))),
                  L5.trans (L4.trans (L3.trans (L2.trans L1))),
                  C5.trans (C4.trans (C3.trans (C2.trans C1))),
                  ⟨[.loadMedia (.ok uuid), .appendCatalogArchive (.ok done),
                    .setMediaFull uuid (.ok ()), .loadMedia (.ok u2),
                    .appendCatalogArchive (.error e)], ?_, rfl⟩,
                  fun hf => absurd hf (fun hf2 => hcontra hf2),
                  fun hk => absurd hk (by simp),
                  fun e2 hEq => by cases hEq; exact Or.inl (appendCatArchive_err h5)⟩
                rw [T5, T4, T3, T2, T1]
                simp
              | .ok done2 =>
                dsimp only
                have htr : st5.trace = st.trace ++ [.loadMedia (.ok uuid),
                    .appendCatalogArchive (.ok done), .setMediaFull uuid (.ok ()),
                    .loadMedia (.ok u2), .appendCatalogArchive (.ok done2)] := by
                  rw [T5, T4, T3, T2, T1]
                  simp
                split
                · refine ⟨S5.trans (S4.trans (S3.trans (S2.trans S1))),
                    E5.trans (E4.trans (E3.trans (E2.trans E1))),
                    N5.trans (N4.trans (N3.trans (N2.trans N1))),
                    P5.trans (P4.trans (P3.trans (P2.trans P1))),
                    L5.trans (L4.trans (L3.trans (L2.trans L1))),
                    C5.trans (C4.trans (C3.trans (C2.trans C1))),
                    ⟨_, htr, rfl⟩, fun hf => absurd hf (fun hf2 => hcontra hf2), fun _ _ => ?_,
                    fun e2 hEq => nomatch hEq⟩
                  rw [htr]
                  simp [List.any_append, isCatalogWriteEv]
                · exact ⟨S5.trans (S4.trans (S3.trans (S2.trans S1))),
                    E5.trans (E4.trans (E3.trans (E2.trans E1))),
                    N5.trans (N4.trans (N3.trans (N2.trans N1))),
                    P5.trans (P4.trans (P3.trans (P2.trans P1))),
                    L5.trans (L4.trans (L3.trans (L2.trans L1))),
                    C5.trans (C4.trans (C3.trans (C2.trans C1))),
                    ⟨_, htr, rfl⟩, fun hf => absurd hf (fun hf2 => hcontra hf2),
                    fun hk => absurd hk (by simp),
                    fun e2 hEq => by cases hEq; exact Or.inr rfl⟩
  · rename_i hnc
    exact ⟨rfl, rfl, rfl, rfl, rfl, rfl, ⟨[], by simp, rfl⟩, fun _ => rfl,
      fun _ hk => absurd hk hnc, fun e2 hEq => nomatch hEq⟩

theorem doCommit_err {st : St} {e : Err} {st1 : St} (h : doCommit st = (.error e, st1)) :
    loopErrOk e = true := by
  unfold doCommit at h
  match hc : st.pw.commitResp with
  | .ok _ => rw [hc] at h; simp at h
  | .error s =>
    rw [hc] at h
    simp only [Prod.mk.injEq, Except.error.injEq] at h
    obtain ⟨rfl, -⟩ := h
    rfl

theorem doExport_err {st : St} {e : Err} {st1 : St} (h : doExport st = (.error e, st1)) :
    loopErrOk e = true := by
  unfold doExport at h
  match hc : st.pw.exportResp with
  | .ok _ => rw [hc] at h; simp at h
  | .error s =>
    rw [hc] at h
    simp only [Prod.mk.injEq, Except.error.injEq] at h
    obtain ⟨rfl, -⟩ := h
    rfl

theorem doEject_err {st : St} {e : Err} {st1 : St} (h : doEject st = (.error e, st1)) :
    loopErrOk e = true := by
  unfold doEject at h
  match hc : st.pw.ejectResp with
  | .ok _ => rw [hc] at h; simp at h
  | .error s =>
    rw [hc] at h
    simp only [Prod.mk.injEq, Except.error.injEq] at h
    obtain ⟨rfl, -⟩ := h
    rfl

/-- Behaviour of the export/eject block (lines 364–368). -/
structure FinSpec (su : Setup) (st : St) (out : Except Err Unit × St) : Prop where
  summary : out.2.summary = st.summary
  errors : out.2.errors = st.errors
  needCatalog : out.2.needCatalog = st.needCatalog
  progress : out.2.progress = st.progress
  progressLog : out.2.progressLog = st.progressLog
  contains : out.2.pw.contains = st.pw.contains
  tr : ∃ t, out.2.trace = st.trace ++ t ∧ t.all isFinalActionEv = true
  exportEv : su.exportMediaSet.getD false = true →
      ∃ re, Event.exportMediaSet re ∈ out.2.trace
  ejectEv : su.exportMediaSet.getD false = false → su.ejectMedia.getD false = true →
      ∃ re, Event.ejectMedia re ∈ out.2.trace
  resErr : ∀ e2, out.1 = .error e2 → loopErrOk e2 = true

theorem finalActions_spec (su : Setup) (st : St) : FinSpec su st (finalActions su st) := by
  unfold finalActions
  split
  · rename_i hex
    rcases h1 : doExport st with ⟨r1, st1⟩
    obtain ⟨T1, S1, E1, N1, P1, L1, C1⟩ := doExport_fields h1
    refine ⟨S1, E1, N1, P1, L1, C1, ⟨[.exportMediaSet r1], T1, rfl⟩,
      fun _ => ⟨r1, by rw [T1]; simp⟩, fun hf => absurd hex (by rw [hf]; simp), ?_⟩
    intro e2 hEq
    match r1 with
    | .ok _ => cases hEq
    | .error e3 =>
      cases hEq
      exact doExport_err h1
  · split
    · rename_i hex hej
      rcases h1 : doEject st with ⟨r1, st1⟩
      obtain ⟨T1, S1, E1, N1, P1, L1, C1⟩ := doEject_fields h1
      refine ⟨S1, E1, N1, P1, L1, C1, ⟨[.ejectMedia r1], T1, rfl⟩,
        fun hf => absurd hf hex, fun _ _ => ⟨r1, by rw [T1]; simp⟩, ?_⟩
      intro e2 hEq
      match r1 with
      | .ok _ => cases hEq
      | .error e3 =>
        cases hEq
        exact doEject_err h1
    · rename_i hex hej
      exact ⟨rfl, rfl, rfl, rfl, rfl, rfl, ⟨[], by simp, rfl⟩,
        fun hf => absurd hf hex, fun _ hf => absurd hf hej, fun e2 hEq => nomatch hEq⟩

/-- Events appearing after the commit entry in the tail of a run. -/
def TailRestEv (e : Event) : Bool :=
  !(isCommitEv e) && !(isArchiveWriteEv e) && !(isSnapshotCallEv e) && !(isSnapDoneEv e)

theorem catEv_tailRest (e : Event) (h : CatEv e = true) : TailRestEv e = true := by
  cases e <;> simp_all [CatEv, TailRestEv, isCommitEv, isArchiveWriteEv, isSnapshotCallEv,
    isSnapDoneEv]

theorem finEv_tailRest (e : Event) (h : isFinalActionEv e = true) : TailRestEv e = true := by
  cases e <;> simp_all [isFinalActionEv, TailRestEv, isCommitEv, isArchiveWriteEv,
    isSnapshotCallEv, isSnapDoneEv]

/-- Behaviour of the whole tail of `backup_worker` (lines 343–384). -/
structure TailSpec (su : Setup) (st : St) (out : Except Err Unit × St) : Prop where
  snapsList : out.2.summary.snapshotList = st.summary.snapshotList
  errors : out.2.errors = st.errors
  needCatalog : out.2.needCatalog = st.needCatalog
  progress : out.2.progress = st.progress
  progressLog : out.2.progressLog = st.progressLog
  contains : out.2.pw.contains = st.pw.contains
  shape : ∃ rc rest, out.2.trace = st.trace ++ (Event.commit rc :: rest) ∧
      rest.all TailRestEv = true
  okErrors : out.1 = .ok () → st.errors = false
  jobErr : out.1 = .error .jobErrors → st.errors = true ∧
      Event.commit (.ok ()) ∈ out.2.trace ∧
      (su.exportMediaSet.getD false = true → ∃ re, Event.exportMediaSet re ∈ out.2.trace) ∧
      (su.exportMediaSet.getD false = false → su.ejectMedia.getD false = true →
        ∃ re, Event.ejectMedia re ∈ out.2.trace)
  errSummary : st.errors = true → out.2.summary.usedTapes = st.summary.usedTapes ∧
      out.2.summary.duration = st.summary.duration
  okCat : out.1 = .ok () → out.2.trace.any isCatalogWriteEv =
      (st.trace.any isCatalogWriteEv || st.needCatalog)
  anyCat : out.2.trace.any isCatalogWriteEv = true →
      st.trace.any isCatalogWriteEv = true ∨ st.needCatalog = true

theorem workerTail_spec (su : Setup) (st : St) : TailSpec su st (workerTail su st) := by
  unfold workerTail
  rcases h1 : doCommit st with ⟨r1, st1⟩
  obtain ⟨T1, S1, E1, N1, P1, L1, C1⟩ := doCommit_fields h1
  match r1 with
  | .error e =>
    dsimp only
    refine ⟨by rw [S1], E1, N1, P1, L1, C1, ⟨.error e, [], by rw [T1], rfl⟩,
      fun hEq => (nomatch hEq), ?_, fun _ => ⟨by rw [S1], by rw [S1]⟩,
      fun hEq => (nomatch hEq), ?_⟩
    · intro hEq
      cases hEq
      exact absurd (doCommit_err h1) (by decide)
    · intro hAny
      rw [T1] at hAny
      simp only [List.any_append, List.any_cons, List.any_nil, isCatalogWriteEv,
        Bool.or_false] at hAny
      exact Or.inl hAny
  | .ok u1 =>
    dsimp only
    rcases h2 : catalogPhase st1 with ⟨r2, st2⟩
    have CS := catalogPhase_spec st1
    rw [h2] at CS
    have CSsum : st2.summary = st1.summary := CS.summary
    have CSerr : st2.errors = st1.errors := CS.errors
    have CSnc : st2.needCatalog = st1.needCatalog := CS.needCatalog
    have CSpr : st2.progress = st1.progress := CS.progress
    have CSpl : st2.progressLog = st1.progressLog := CS.progressLog
    have CSct : st2.pw.contains = st1.pw.contains := CS.contains
    obtain ⟨tc, Tc0, Ac⟩ := CS.tr
    have Tc : st2.trace = st1.trace ++ tc := Tc0
    have Tc2 : st2.trace = st.trace ++ (Event.commit (.ok u1) :: tc) := by
      rw [Tc, T1]
      simp
    match r2 with
    | .error e =>
      dsimp only
      refine ⟨by rw [CSsum, S1], CSerr.trans E1,
        CSnc.trans N1, CSpr.trans P1, CSpl.trans L1,
        CSct.trans C1, ⟨.ok u1, tc, Tc2, all_imp catEv_tailRest Ac⟩,
        fun hEq => (nomatch hEq), ?_, fun _ => ⟨by rw [CSsum, S1], by rw [CSsum, S1]⟩,
        fun hEq => (nomatch hEq), ?_⟩
      · intro hEq
        cases hEq
        rcases CS.resErr _ rfl with hp | hp
        · exact absurd hp (by decide)
        · cases hp
      · intro hAny
        by_cases hnc : st.needCatalog = true
        · exact Or.inr hnc
        · have hnc2 : st1.needCatalog = false := by
            rw [N1]
            revert hnc
            cases st.needCatalog <;> simp
          have := CS.noNeed hnc2
          rw [Prod.mk.injEq] at this
          cases this.1
    | .ok u2 =>
      dsimp only
      rcases h3 : finalActions su st2 with ⟨r3, st3⟩
      have FS := finalActions_spec su st2
      rw [h3] at FS
      have FSsum : st3.summary = st2.summary := FS.summary
      have FSerr : st3.errors = st2.errors := FS.errors
      have FSnc : st3.needCatalog = st2.needCatalog := FS.needCatalog
      have FSpr : st3.progress = st2.progress := FS.progress
      have FSpl : st3.progressLog = st2.progressLog := FS.progressLog
      have FSct : st3.pw.contains = st2.pw.contains := FS.contains
      obtain ⟨tf, Tf0, Af⟩ := FS.tr
      have Tf : st3.trace = st2.trace ++ tf := Tf0
      have Tf2 : st3.trace = st.trace ++ (Event.commit (.ok u1) :: (tc ++ tf)) := by
        rw [Tf, Tc2]
        simp
      have anyCat3 : st3.trace.any isCatalogWriteEv =
          (st.trace.any isCatalogWriteEv || tc.any isCatalogWriteEv) := by
        rw [Tf2]
        simp only [List.any_append, List.any_cons, isCatalogWriteEv, Bool.false_or]
        have : tf.any isCatalogWriteEv = false := by
          simp only [List.any_eq_false, Bool.not_eq_true]
          intro e he
          have hfe : isFinalActionEv e = true := by
            simp only [List.all_eq_true] at Af
            exact Af e he
          cases e <;> simp_all [isFinalActionEv, isCatalogWriteEv]
        rw [this, Bool.or_false]
      have needChain : st1.needCatalog = st.needCatalog := N1
      have anyTc : tc.any isCatalogWriteEv = true → st.needCatalog = true := by
        intro hAny
        by_cases hnc : st.needCatalog = true
        · exact hnc
        · have hnc2 : st1.needCatalog = false := by
            rw [needChain]
            revert hnc
            cases st.needCatalog <;> simp
          have hid := CS.noNeed hnc2
          rw [Prod.mk.injEq] at hid
          have hteq : st2.trace = st1.trace := by rw [hid.2]
          rw [hteq] at Tc
          have htc : tc = [] := by
            have h0 : st1.trace ++ [] = st1.trace ++ tc := by simpa using Tc
            exact (List.append_cancel_left h0).symm
          rw [htc] at hAny
          cases hAny
      match r3 with
      | .error e =>
        dsimp only
        refine ⟨by rw [FSsum, CSsum, S1], FSerr.trans (CSerr.trans E1),
          FSnc.trans (CSnc.trans N1),
          FSpr.trans (CSpr.trans P1),
          FSpl.trans (CSpl.trans L1),
          FSct.trans (CSct.trans C1),
          ⟨.ok u1, tc ++ tf, Tf2, ?_⟩, fun hEq => (nomatch hEq), ?_,
          fun _ => ⟨by rw [FSsum, CSsum, S1], by rw [FSsum, CSsum, S1]⟩,
          fun hEq => (nomatch hEq), ?_⟩
        · simp only [List.all_append]
          rw [all_imp catEv_tailRest Ac, all_imp finEv_tailRest Af]
          rfl
        · intro hEq
          cases hEq
          exact absurd (FS.resErr _ rfl) (by decide)
        · intro hAny
          rw [anyCat3] at hAny
          rcases Bool.or_eq_true_iff.mp hAny with hp | hp
          · exact Or.inl hp
          · exact Or.inr (anyTc hp)
      | .ok u3 =>
        dsimp only
        split
        · rename_i hErr3
          have hErrSt : st.errors = true := by
            rw [← E1, ← CSerr, ← FSerr]
            exact hErr3
          refine ⟨by rw [FSsum, CSsum, S1], FSerr.trans (CSerr.trans E1),
            FSnc.trans (CSnc.trans N1),
            FSpr.trans (CSpr.trans P1),
            FSpl.trans (CSpl.trans L1),
            FSct.trans (CSct.trans C1),
            ⟨.ok u1, tc ++ tf, Tf2, ?_⟩, fun hEq => (nomatch hEq), ?_,
            fun _ => ⟨by rw [FSsum, CSsum, S1], by rw [FSsum, CSsum, S1]⟩,
            fun hEq => (nomatch hEq), ?_⟩
          · simp only [List.all_append]
            rw [all_imp catEv_tailRest Ac, all_imp finEv_tailRest Af]
            rfl
          · intro _
            refine ⟨hErrSt, ?_, fun hex => ?_, fun hex hej => ?_⟩
            · rw [Tf2]
              simp
            · obtain ⟨re, hre⟩ := FS.exportEv hex
              exact ⟨re, hre⟩
            · obtain ⟨re, hre⟩ := FS.ejectEv hex hej
              exact ⟨re, hre⟩
          · intro hAny
            rw [anyCat3] at hAny
            rcases Bool.or_eq_true_iff.mp hAny with hp | hp
            · exact Or.inl hp
            · exact Or.inr (anyTc hp)
        · rename_i hErr3
          have hErrSt : st.errors = false := by
            have : st3.errors = false := by
              revert hErr3
              cases st3.errors <;> simp
            rw [← E1, ← CSerr, ← FSerr]
            exact this
          have hcatOk : st3.trace.any isCatalogWriteEv =
              (st.trace.any isCatalogWriteEv || st.needCatalog) := by
            rw [anyCat3]
            by_cases hnc : st.needCatalog = true
            · rw [hnc]
              have hnc1 : st1.needCatalog = true := by rw [needChain]; exact hnc
              have hoc : st2.trace.any isCatalogWriteEv = true := CS.okCat (by rfl) hnc1
              rw [Tc, T1] at hoc
              simp only [List.any_append, List.any_cons, List.any_nil, isCatalogWriteEv,
                Bool.or_false, Bool.or_eq_true_iff] at hoc
              rcases hoc with hp | hp
              · simp [hp]
              · simp [hp]
            · have hnc0 : st.needCatalog = false := by
                revert hnc
                cases st.needCatalog <;> simp
              have hnc2 : st1.needCatalog = false := by rw [needChain]; exact hnc0
              have hid := CS.noNeed hnc2
              rw [Prod.mk.injEq] at hid
              have hteq : st2.trace = st1.trace := by rw [hid.2]
              rw [hteq] at Tc
              have htc : tc = [] := by
                have h0 : st1.trace ++ [] = st1.trace ++ tc := by simpa using Tc
                exact (List.append_cancel_left h0).symm
              rw [htc, hnc0]
              simp
          match hu : st3.pw.usedLabels with
          | .ok tapes =>
            refine ⟨by dsimp only; rw [FSsum, CSsum, S1],
              by dsimp only; exact FSerr.trans (CSerr.trans E1),
              by dsimp only; exact FSnc.trans (CSnc.trans N1),
              by dsimp only; exact FSpr.trans (CSpr.trans P1),
              by dsimp only; exact FSpl.trans (CSpl.trans L1),
              by dsimp only; exact FSct.trans (CSct.trans C1),
              ⟨.ok u1, tc ++ tf, by dsimp only; exact Tf2, ?_⟩,
              fun _ => hErrSt, fun hEq => (nomatch hEq),
              fun hc => absurd hErrSt (by rw [hc]; simp), fun _ => by dsimp only; exact hcatOk,
              fun hAny => ?_⟩
            · simp only [List.all_append]
              rw [all_imp catEv_tailRest Ac, all_imp finEv_tailRest Af]
              rfl
            · dsimp only at hAny
              rw [anyCat3] at hAny
              rcases Bool.or_eq_true_iff.mp hAny with hp | hp
              · exact Or.inl hp
              · exact Or.inr (anyTc hp)
          | .error s =>
            refine ⟨by dsimp only; rw [FSsum, CSsum, S1],
              by dsimp only; exact FSerr.trans (CSerr.trans E1),
              by dsimp only; exact FSnc.trans (CSnc.trans N1),
              by dsimp only; exact FSpr.trans (CSpr.trans P1),
              by dsimp only; exact FSpl.trans (CSpl.trans L1),
              by dsimp only; exact FSct.trans (CSct.trans C1),
              ⟨.ok u1, tc ++ tf, by dsimp only; exact Tf2, ?_⟩,
              fun _ => hErrSt, fun hEq => (nomatch hEq),
              fun hc => absurd hErrSt (by rw [hc]; simp), fun _ => by dsimp only; exact hcatOk,
              fun hAny => ?_⟩
            · simp only [List.all_append]
              rw [all_imp catEv_tailRest Ac, all_imp finEv_tailRest Af]
              rfl
            · dsimp only at hAny
              rw [anyCat3] at hAny
              rcases Bool.or_eq_true_iff.mp hAny with hp | hp
              · exact Or.inl hp
              · exact Or.inr (anyTc hp)

theorem initSt_runInv (pw : PoolWriterOracle) (abort : Bool) (elapsed : Nat) :
    RunInv (initSt pw abort elapsed) :=
  ⟨fun sid hm => absurd hm (List.not_mem_nil _),
   fun sid hm => absurd hm (List.not_mem_nil _),
   fun sid _ => ⟨fun hm => List.not_mem_nil _ hm, fun r hm => List.not_mem_nil _ hm⟩,
   rfl, rfl, fun hm => absurd hm (by simp [initSt])⟩

theorem updateMediaOnlineStatus_err {ch : ChangerSetup} {e : Err}
    (h : updateMediaOnlineStatus ch = .error e) : ∃ s, e = .env s := by
  match ch with
  | .noChanger => cases h
  | .changer lt inv upd name =>
    unfold updateMediaOnlineStatus at h
    match lt with
    | .error s =>
      simp only [Except.error.injEq] at h
      exact ⟨s, h.symm⟩
    | .ok _ =>
      match inv with
      | .error s =>
        simp only [Except.error.injEq] at h
        exact ⟨s, h.symm⟩
      | .ok _ =>
        match upd with
        | .error s =>
          simp only [Except.error.injEq] at h
          exact ⟨s, h.symm⟩
        | .ok _ => cases h

theorem loopEv_noCat {t : List Event} (h : t.all LoopEv = true) :
    t.any isCatalogWriteEv = false := by
  simp only [List.any_eq_false, Bool.not_eq_true]
  intro e he
  have hl : LoopEv e = true := by
    simp only [List.all_eq_true] at h
    exact h e he
  cases e <;> simp_all [LoopEv, isCatalogWriteEv, isCommitEv, isFinalActionEv]

theorem tailRestEv_neutral (e : Event) (h : TailRestEv e = true) :
    (!(isSnapshotCallEv e) && !(isSnapDoneEv e)) = true := by
  cases e <;> simp_all [TailRestEv, isSnapshotCallEv, isSnapDoneEv, isCommitEv,
    isArchiveWriteEv]

/-- The worker-level facts shared by several claims. -/
structure WorkerSpec (su : Setup) (out : Except Err Unit × St) : Prop where
  runInv : RunInv out.2
  okErrors : out.1 = .ok () → out.2.errors = false
  errNone : out.2.errors = true → out.2.summary.usedTapes = none ∧
      out.2.summary.duration = none ∧ out.1 ≠ .ok ()
  shape : out.2.trace.all LoopEv = true ∨
      ∃ t1 rc rest, out.2.trace = t1 ++ (Event.commit rc :: rest) ∧ t1.all LoopEv = true ∧
        rest.all TailRestEv = true
  okTailed : out.1 = .ok () →
      ∃ t1 rc rest, out.2.trace = t1 ++ (Event.commit rc :: rest) ∧ t1.all LoopEv = true ∧
        rest.all TailRestEv = true
  okCat : out.1 = .ok () → out.2.trace.any isCatalogWriteEv = out.2.needCatalog
  anyCatNeed : out.2.trace.any isCatalogWriteEv = true → out.2.needCatalog = true
  jobErr : out.1 = .error .jobErrors → out.2.errors = true ∧
      Event.commit (.ok ()) ∈ out.2.trace ∧
      (su.exportMediaSet.getD false = true → ∃ re, Event.exportMediaSet re ∈ out.2.trace) ∧
      (su.exportMediaSet.getD false = false → su.ejectMedia.getD false = true →
        ∃ re, Event.ejectMedia re ∈ out.2.trace)

theorem backupWorker_spec (su : Setup) (ch : ChangerSetup) (nsGroups : List (List Group))
    (pw : PoolWriterOracle) (abort : Bool) (elapsed : Nat) :
    WorkerSpec su (backupWorker su ch nsGroups pw abort elapsed) := by
  unfold backupWorker
  dsimp only
  match hu : updateMediaOnlineStatus ch with
  | .error e =>
    refine ⟨initSt_runInv pw abort elapsed, fun hEq => (nomatch hEq), fun hc => ?_,
      Or.inl rfl, fun hEq => (nomatch hEq), fun hEq => (nomatch hEq), fun hAny => ?_,
      fun hEq => ?_⟩
    · simp [initSt] at hc
    · simp [initSt] at hAny
    · cases hEq
      obtain ⟨s, hs⟩ := updateMediaOnlineStatus_err hu
      cases hs
  | .ok _ =>
    dsimp only
    match hi : pw.initResp with
    | .error e =>
      refine ⟨initSt_runInv pw abort elapsed, fun hEq => (nomatch hEq), fun hc => ?_,
        Or.inl rfl, fun hEq => (nomatch hEq), fun hEq => (nomatch hEq), fun hAny => ?_,
        fun hEq => (nomatch hEq)⟩
      · simp [initSt] at hc
      · simp [initSt] at hAny
    | .ok _ =>
      dsimp only
      rcases hL : groupsLoop (su.latestOnly.getD false) (selectGroups su.groupFilter nsGroups)
          0 (setProgress (initSt pw abort elapsed)
            (StoreProgress.make (selectGroups su.groupFilter nsGroups).length)) with ⟨rL, stL⟩
      have hLF : LoopFrame (setProgress (initSt pw abort elapsed)
          (StoreProgress.make (selectGroups su.groupFilter nsGroups).length)) stL := by
        have := groupsLoop_loopFrame (su.latestOnly.getD false)
          (selectGroups su.groupFilter nsGroups) 0
          (setProgress (initSt pw abort elapsed)
            (StoreProgress.make (selectGroups su.groupFilter nsGroups).length))
        rw [hL] at this
        exact this
      have hRI : RunInv stL := by
        have := groupsLoop_runInv (su.latestOnly.getD false)
          (selectGroups su.groupFilter nsGroups) 0
          (setProgress (initSt pw abort elapsed)
            (StoreProgress.make (selectGroups su.groupFilter nsGroups).length))
          (setProgress_runInv _ (initSt_runInv pw abort elapsed))
        rw [hL] at this
        exact this
      obtain ⟨tl, Tl0, Al⟩ := hLF.tr
      have Tl : stL.trace = tl := by
        rw [Tl0]
        simp [setProgress, initSt]
      have hUT : stL.summary.usedTapes = none := by
        rw [hLF.usedTapes]
        rfl
      have hDU : stL.summary.duration = none := by
        rw [hLF.duration]
        rfl
      have hCatL : stL.trace.any isCatalogWriteEv = false := by
        rw [Tl]
        exact loopEv_noCat Al
      match rL with
      | .error e =>
        dsimp only
        refine ⟨hRI, fun hEq => (nomatch hEq), fun _ => ⟨hUT, hDU, fun hEq => (nomatch hEq)⟩,
          Or.inl (by rw [Tl]; exact Al), fun hEq => (nomatch hEq), fun hEq => (nomatch hEq),
          fun hAny => absurd hAny (by rw [hCatL]; simp), fun hEq => ?_⟩
        cases hEq
        exact absurd (groupsLoop_err hL) (by decide)
      | .ok _ =>
        dsimp only
        have TS := workerTail_spec su stL
        obtain ⟨rc, rest, Tt, At⟩ := TS.shape
        refine ⟨?_, ?_, ?_, ?_, ?_, ?_, ?_, ?_⟩
        · refine RunInv.ofNeutral ⟨TS.errors, TS.snapsList, TS.needCatalog, TS.contains,
            ⟨Event.commit rc :: rest, Tt, ?_⟩⟩ hRI
          simp only [List.all_cons, Bool.and_eq_true]
          exact ⟨⟨rfl, rfl⟩, all_imp tailRestEv_neutral At⟩
        · intro hok
          rw [TS.errors]
          exact TS.okErrors hok
        · intro hc
          rw [TS.errors] at hc
          obtain ⟨hu2, hd2⟩ := TS.errSummary hc
          refine ⟨by rw [hu2, hUT], by rw [hd2, hDU], fun hok => ?_⟩
          rw [TS.okErrors hok] at hc
          cases hc
        · exact Or.inr ⟨stL.trace, rc, rest, Tt, by rw [Tl]; exact Al, At⟩
        · exact fun _ => ⟨stL.trace, rc, rest, Tt, by rw [Tl]; exact Al, At⟩
        · intro hok
          have := TS.okCat hok
          rw [hCatL] at this
          rw [this, TS.needCatalog]
          simp
        · intro hAny
          rcases TS.anyCat hAny with hp | hp
          · rw [hCatL] at hp
            cases hp
          · rw [TS.needCatalog]
            exact hp
        · intro hEq
          obtain ⟨hErr, hCm, hEx, hEj⟩ := TS.jobErr hEq
          exact ⟨by rw [TS.errors]; exact hErr, hCm, hEx, hEj⟩

theorem backupWorker_contains (su : Setup) (ch : ChangerSetup) (nsGroups : List (List Group))
    (pw : PoolWriterOracle) (abort : Bool) (elapsed : Nat) :
    (backupWorker su ch nsGroups pw abort elapsed).2.pw.contains = pw.contains := by
  unfold backupWorker
  dsimp only
  match hu : updateMediaOnlineStatus ch with
  | .error e => rfl
  | .ok _ =>
    dsimp only
    match hi : pw.initResp with
    | .error e => rfl
    | .ok _ =>
      dsimp only
      rcases hL : groupsLoop (su.latestOnly.getD false) (selectGroups su.groupFilter nsGroups)
          0 (setProgress (initSt pw abort elapsed)
            (StoreProgress.make (selectGroups su.groupFilter nsGroups).length)) with ⟨rL, stL⟩
      have hLF : LoopFrame (setProgress (initSt pw abort elapsed)
          (StoreProgress.make (selectGroups su.groupFilter nsGroups).length)) stL := by
        have := groupsLoop_loopFrame (su.latestOnly.getD false)
          (selectGroups su.groupFilter nsGroups) 0
          (setProgress (initSt pw abort elapsed)
            (StoreProgress.make (selectGroups su.groupFilter nsGroups).length))
        rw [hL] at this
        exact this
      have hC : stL.pw.contains = pw.contains := hLF.contains
      match rL with
      | .error e => exact hC
      | .ok _ =>
        dsimp only
        exact ((workerTail_spec su stL).contains).trans hC

/-! ## Which snapshots can appear as `backup_snapshot` entries -/

theorem getLast?_mem_list {l : List Snapshot} {info : Snapshot} (h : l.getLast? = some info) :
    info ∈ l := by
  have hm : info ∈ l.getLast? := Option.mem_def.mpr h
  obtain ⟨hne, hEq⟩ := List.mem_getLast?_eq_getLast hm
  rw [hEq]
  exact List.getLast_mem hne

theorem mem_sortSnapshots {l : List Snapshot} {x : Snapshot} (h : x ∈ sortSnapshots l) :
    x ∈ l := by
  unfold sortSnapshots at h
  exact (List.perm_insertionSort _ l).subset h

theorem snapStep_callEvents (g : Group) (info : Snapshot) (st : St) :
    ∀ sid, Event.snapshotBackup sid ∈ (snapStep g info st).2.trace →
      Event.snapshotBackup sid ∈ st.trace ∨ sid = mkSid g info := by
  unfold snapStep
  dsimp only
  split
  · intro sid hm
    rw [show (Except.ok StepResult.skipped,
        recordEvent st (Event.skipSnapshot (mkSid g info))).2.trace =
        st.trace ++ [Event.skipSnapshot (mkSid g info)] from rfl, List.mem_append,
      List.mem_cons] at hm
    rcases hm with hm | hm | hm
    · exact Or.inl hm
    · cases hm
    · cases hm
  · rcases h : backupSnapshot g info { st with needCatalog := true } with ⟨r1, st2⟩
    have hbf : MechFrame (recordEvent { st with needCatalog := true }
        (.snapshotBackup (mkSid g info))) st2 := by
      have := backupSnapshot_frame g info { st with needCatalog := true }
      rw [h] at this
      exact this
    obtain ⟨t, ht, ha⟩ := hbf.tr
    have htrace : st2.trace = st.trace ++ (Event.snapshotBackup (mkSid g info) :: t) := by
      simpa [recordEvent] using ht
    have hmemT : ∀ sid, Event.snapshotBackup sid ∈ st2.trace →
        Event.snapshotBackup sid ∈ st.trace ∨ sid = mkSid g info := by
      intro sid hm
      rw [htrace, List.mem_append, List.mem_cons] at hm
      rcases hm with hm | hm | hm
      · exact Or.inl hm
      · cases hm
        exact Or.inr rfl
      · have hmv : MechEv (Event.snapshotBackup sid) = true := by
          simp only [List.all_eq_true] at ha
          exact ha _ hm
        cases hmv
    match r1 with
    | .error e => exact hmemT
    | .ok res =>
      dsimp only
      intro sid hm
      apply hmemT
      have hmm : Event.snapshotBackup sid ∈
          st2.trace ++ [Event.snapshotDone (mkSid g info) res] := by
        match res with
        | .success => simpa [recordEvent] using hm
        | .error => simpa [recordEvent] using hm
        | .ignored => simpa [recordEvent] using hm
      rw [List.mem_append, List.mem_cons] at hmm
      rcases hmm with hmm | hmm | hmm
      · exact hmm
      · cases hmm
      · cases hmm

theorem snapsLoop_callEvents (g : Group) (l : List Snapshot) :
    ∀ (n : Nat) (st : St) (sid : SnapId),
      Event.snapshotBackup sid ∈ (snapsLoop g l n st).2.trace →
      Event.snapshotBackup sid ∈ st.trace ∨ ∃ info ∈ l, sid = mkSid g info := by
  induction l with
  | nil => exact fun n st sid hm => Or.inl hm
  | cons info rest ih =>
    intro n st sid hm
    rw [snapsLoop] at hm
    rcases h : snapStep g info st with ⟨r1, st1⟩
    rw [h] at hm
    have hstep : ∀ sid, Event.snapshotBackup sid ∈ st1.trace →
        Event.snapshotBackup sid ∈ st.trace ∨ sid = mkSid g info := by
      intro sid2 hm2
      have := snapStep_callEvents g info st sid2
      rw [h] at this
      exact this hm2
    match r1 with
    | .error e =>
      rcases hstep sid hm with hp | hp
      · exact Or.inl hp
      · exact Or.inr ⟨info, List.mem_cons_self _ _, hp⟩
    | .ok .skipped =>
      rcases ih (n + 1) st1 sid hm with hp | ⟨i2, hi2, hp⟩
      · rcases hstep sid hp with hq | hq
        · exact Or.inl hq
        · exact Or.inr ⟨info, List.mem_cons_self _ _, hq⟩
      · exact Or.inr ⟨i2, List.mem_cons_of_mem _ hi2, hp⟩
    | .ok .processed =>
      rcases ih (n + 1) _ sid hm with hp | ⟨i2, hi2, hp⟩
      · rcases hstep sid (by simpa [setProgress] using hp) with hq | hq
        · exact Or.inl hq
        · exact Or.inr ⟨info, List.mem_cons_self _ _, hq⟩
      · exact Or.inr ⟨i2, List.mem_cons_of_mem _ hi2, hp⟩

theorem latestBranch_callEvents (g : Group) (sorted : List Snapshot) (st : St) :
    ∀ sid, Event.snapshotBackup sid ∈ (latestBranch g sorted st).2.trace →
      Event.snapshotBackup sid ∈ st.trace ∨ ∃ info ∈ sorted, sid = mkSid g info := by
  unfold latestBranch
  dsimp only
  rcases hL : sorted.getLast? with _ | info
  · exact fun sid hm => Or.inl (by simpa [setProgress] using hm)
  · dsimp only
    rcases h : snapStep g info (setProgress st { st.progress with groupSnapshots := 1 }) with
      ⟨r1, st1⟩
    have hstep : ∀ sid, Event.snapshotBackup sid ∈ st1.trace →
        Event.snapshotBackup sid ∈ st.trace ∨ sid = mkSid g info := by
      intro sid2 hm2
      have := snapStep_callEvents g info
        (setProgress st { st.progress with groupSnapshots := 1 }) sid2
      rw [h] at this
      rcases this hm2 with hp | hp
      · exact Or.inl (by simpa [setProgress] using hp)
      · exact Or.inr hp
    have hmem : info ∈ sorted := getLast?_mem_list hL
    match r1 with
    | .error e =>
      intro sid hm
      rcases hstep sid hm with hp | hp
      · exact Or.inl hp
      · exact Or.inr ⟨info, hmem, hp⟩
    | .ok .skipped =>
      intro sid hm
      rcases hstep sid hm with hp | hp
      · exact Or.inl hp
      · exact Or.inr ⟨info, hmem, hp⟩
    | .ok .processed =>
      intro sid hm
      rcases hstep sid (by simpa [setProgress] using hm) with hp | hp
      · exact Or.inl hp
      · exact Or.inr ⟨info, hmem, hp⟩

theorem processGroup_callEvents (lo : Bool) (n : Nat) (g : Group) (st : St) :
    ∀ sid, Event.snapshotBackup sid ∈ (processGroup lo n g st).2.trace →
      Event.snapshotBackup sid ∈ st.trace ∨
        ∃ s ∈ g.snaps, s.finished = true ∧ sid = mkSid g s := by
  unfold processGroup
  dsimp only
  have hsorted : ∀ x, x ∈ sortSnapshots (g.snaps.filter (fun s => s.finished)) →
      x ∈ g.snaps ∧ x.finished = true := by
    intro x hx
    have := mem_sortSnapshots hx
    rw [List.mem_filter] at this
    exact ⟨this.1, this.2⟩
  split
  · exact fun sid hm => Or.inl (by simpa [setProgress] using hm)
  · split
    · intro sid hm
      rcases latestBranch_callEvents g _ _ sid hm with hp | ⟨info, hi, hp⟩
      · exact Or.inl (by simpa [setProgress] using hp)
      · obtain ⟨hmem, hfin⟩ := hsorted info hi
        exact Or.inr ⟨info, hmem, hfin, hp⟩
    · intro sid hm
      unfold fullBranch at hm
      rcases snapsLoop_callEvents g _ 0 _ sid hm with hp | ⟨info, hi, hp⟩
      · exact Or.inl (by simpa [setProgress] using hp)
      · obtain ⟨hmem, hfin⟩ := hsorted info hi
        exact Or.inr ⟨info, hmem, hfin, hp⟩

theorem groupsLoop_callEvents (lo : Bool) (l : List Group) :
    ∀ (n : Nat) (st : St) (sid : SnapId),
      Event.snapshotBackup sid ∈ (groupsLoop lo l n st).2.trace →
      Event.snapshotBackup sid ∈ st.trace ∨
        ∃ g ∈ l, ∃ s ∈ g.snaps, s.finished = true ∧ sid = mkSid g s := by
  induction l with
  | nil => exact fun n st sid hm => Or.inl hm
  | cons g rest ih =>
    intro n st sid hm
    rw [groupsLoop] at hm
    rcases h : processGroup lo n g st with ⟨r1, st1⟩
    rw [h] at hm
    have hstep : ∀ sid, Event.snapshotBackup sid ∈ st1.trace →
        Event.snapshotBackup sid ∈ st.trace ∨
          ∃ s ∈ g.snaps, s.finished = true ∧ sid = mkSid g s := by
      intro sid2 hm2
      have := processGroup_callEvents lo n g st sid2
      rw [h] at this
      exact this hm2
    match r1 with
    | .error e =>
      rcases hstep sid hm with hp | ⟨s, hs, hf, hp⟩
      · exact Or.inl hp
      · exact Or.inr ⟨g, List.mem_cons_self _ _, s, hs, hf, hp⟩
    | .ok _ =>
      rcases ih (n + 1) st1 sid hm with hp | ⟨g2, hg2, s, hs, hf, hp⟩
      · rcases hstep sid hp with hq | ⟨s, hs, hf, hq⟩
        · exact Or.inl hq
        · exact Or.inr ⟨g, List.mem_cons_self _ _, s, hs, hf, hq⟩
      · exact Or.inr ⟨g2, List.mem_cons_of_mem _ hg2, s, hs, hf, hp⟩

theorem mem_selectGroups {f : Option (GroupId → Bool)} {nsGroups : List (List Group)}
    {g : Group} (h : g ∈ selectGroups f nsGroups) : g ∈ nsGroups.flatten := by
  unfold selectGroups sortGroups at h
  match f with
  | some fl =>
    dsimp only at h
    rw [List.mem_filter] at h
    exact (List.perm_insertionSort _ _).subset h.1
  | none =>
    dsimp only at h
    exact (List.perm_insertionSort _ _).subset h

theorem backupWorker_callEvents (su : Setup) (ch : ChangerSetup)
    (nsGroups : List (List Group)) (pw : PoolWriterOracle) (abort : Bool) (elapsed : Nat) :
    ∀ sid, Event.snapshotBackup sid ∈ (backupWorker su ch nsGroups pw abort elapsed).2.trace →
      ∃ g ∈ nsGroups.flatten, ∃ s ∈ g.snaps, s.finished = true ∧ sid = mkSid g s := by
  unfold backupWorker
  dsimp only
  match hu : updateMediaOnlineStatus ch with
  | .error e => exact fun sid hm => absurd hm (List.not_mem_nil _)
  | .ok _ =>
    dsimp only
    match hi : pw.initResp with
    | .error e => exact fun sid hm => absurd hm (List.not_mem_nil _)
    | .ok _ =>
      dsimp only
      rcases hL : groupsLoop (su.latestOnly.getD false) (selectGroups su.groupFilter nsGroups)
          0 (setProgress (initSt pw abort elapsed)
            (StoreProgress.make (selectGroups su.groupFilter nsGroups).length)) with ⟨rL, stL⟩
      have hloop : ∀ sid, Event.snapshotBackup sid ∈ stL.trace →
          ∃ g ∈ nsGroups.flatten, ∃ s ∈ g.snaps, s.finished = true ∧ sid = mkSid g s := by
        intro sid hm
        have := groupsLoop_callEvents (su.latestOnly.getD false)
          (selectGroups su.groupFilter nsGroups) 0
          (setProgress (initSt pw abort elapsed)
            (StoreProgress.make (selectGroups su.groupFilter nsGroups).length)) sid
        rw [hL] at this
        rcases this hm with hp | ⟨g, hg, s, hs, hf, hp⟩
        · simp [setProgress, initSt] at hp
        · exact ⟨g, mem_selectGroups hg, s, hs, hf, hp⟩
      match rL with
      | .error e => exact hloop
      | .ok _ =>
        dsimp only
        intro sid hm
        have TS := workerTail_spec su stL
        obtain ⟨rc, rest, Tt, At⟩ := TS.shape
        rw [Tt, List.mem_append, List.mem_cons] at hm
        rcases hm with hm | hm | hm
        · exact hloop sid hm
        · cases hm
        · have := tailRestEv_neutral _ (by
            simp only [List.all_eq_true] at At
            exact At _ hm)
          simp [isSnapshotCallEv, isSnapDoneEv] at this

/-! ## Monotonicity of the progress-counter history -/

theorem snapStep_prog (g : Group) (info : Snapshot) (st : St) :
    (snapStep g info st).2.progress = st.progress ∧
      (snapStep g info st).2.progressLog = st.progressLog := by
  unfold snapStep
  dsimp only
  split
  · exact ⟨rfl, rfl⟩
  · rcases h : backupSnapshot g info { st with needCatalog := true } with ⟨r1, st2⟩
    have hbf : MechFrame (recordEvent { st with needCatalog := true }
        (.snapshotBackup (mkSid g info))) st2 := by
      have := backupSnapshot_frame g info { st with needCatalog := true }
      rw [h] at this
      exact this
    have hp : st2.progress = st.progress := hbf.progress
    have hl : st2.progressLog = st.progressLog := hbf.progressLog
    match r1 with
    | .error e => exact ⟨hp, hl⟩
    | .ok res =>
      dsimp only
      match res with
      | .success => exact ⟨hp, hl⟩
      | .error => exact ⟨hp, hl⟩
      | .ignored => exact ⟨hp, hl⟩

/-- The progress log is a `globLe`-chain and ends at the current counter
value. -/
def ChainOk (st : St) : Prop :=
  List.Chain' globLe st.progressLog ∧
    (st.progressLog = [] ∨ st.progressLog.getLast? = some st.progress)

theorem setProgress_chainOk {st : St} {p : StoreProgress} (hc : ChainOk st)
    (hg : globLe st.progress p ∨ st.progressLog = []) : ChainOk (setProgress st p) := by
  obtain ⟨hch, hlast⟩ := hc
  constructor
  · show List.Chain' globLe (st.progressLog ++ [p])
    rw [List.chain'_append]
    refine ⟨hch, List.chain'_singleton _, ?_⟩
    intro x hx y hy
    simp only [List.head?_cons, Option.mem_def, Option.some.injEq] at hy
    subst hy
    rcases hlast with hnil | hlast
    · rw [hnil] at hx
      cases hx
    · rw [hlast] at hx
      simp only [Option.mem_def, Option.some.injEq] at hx
      subst hx
      rcases hg with hg | hg
      · exact hg
      · rw [hg] at hlast
        exact absurd hlast (by simp)
  · right
    show (st.progressLog ++ [p]).getLast? = some p
    exact List.getLast?_concat _

theorem globLe_refl_fields {a b : StoreProgress} (h1 : b.totalGroups = a.totalGroups)
    (h2 : b.doneGroups = a.doneGroups) : globLe a b :=
  ⟨by rw [h1], by rw [h2]⟩

theorem snapsLoop_chain (g : Group) (l : List Snapshot) :
    ∀ (n : Nat) (st : St), ChainOk st →
      ChainOk (snapsLoop g l n st).2 ∧
        (snapsLoop g l n st).2.progress.doneGroups = st.progress.doneGroups ∧
        (snapsLoop g l n st).2.progress.totalGroups = st.progress.totalGroups := by
  induction l with
  | nil => exact fun n st hc => ⟨hc, rfl, rfl⟩
  | cons info rest ih =>
    intro n st hc
    rw [snapsLoop]
    rcases h : snapStep g info st with ⟨r1, st1⟩
    have hsp : st1.progress = st.progress ∧ st1.progressLog = st.progressLog := by
      have := snapStep_prog g info st
      rw [h] at this
      exact this
    have hc1 : ChainOk st1 := by
      obtain ⟨hch, hlast⟩ := hc
      exact ⟨by rw [hsp.2]; exact hch, by rw [hsp.2, hsp.1]; exact hlast⟩
    match r1 with
    | .error e => exact ⟨hc1, by rw [hsp.1], by rw [hsp.1]⟩
    | .ok .skipped =>
      obtain ⟨ha, hb, hcc⟩ := ih (n + 1) st1 hc1
      exact ⟨ha, by rw [hb, hsp.1], by rw [hcc, hsp.1]⟩
    | .ok .processed =>
      have hc2 : ChainOk (setProgress st1 { st1.progress with doneSnapshots := n + 1 }) :=
        setProgress_chainOk hc1 (Or.inl (globLe_refl_fields rfl rfl))
      obtain ⟨ha, hb, hcc⟩ := ih (n + 1) _ hc2
      refine ⟨ha, ?_, ?_⟩
      · rw [hb]
        simp only [setProgress]
        rw [hsp.1]
      · rw [hcc]
        simp only [setProgress]
        rw [hsp.1]

theorem latestBranch_chain (g : Group) (sorted : List Snapshot) (st : St) (hc : ChainOk st) :
    ChainOk (latestBranch g sorted st).2 ∧
      (latestBranch g sorted st).2.progress.doneGroups = st.progress.doneGroups ∧
      (latestBranch g sorted st).2.progress.totalGroups = st.progress.totalGroups := by
  unfold latestBranch
  dsimp only
  have hcd : ChainOk (setProgress st { st.progress with groupSnapshots := 1 }) :=
    setProgress_chainOk hc (Or.inl (globLe_refl_fields rfl rfl))
  rcases hL : sorted.getLast? with _ | info
  · exact ⟨hcd, rfl, rfl⟩
  · dsimp only
    rcases h : snapStep g info (setProgress st { st.progress with groupSnapshots := 1 }) with
      ⟨r1, st1⟩
    have hsp := snapStep_prog g info (setProgress st { st.progress with groupSnapshots := 1 })
    rw [h] at hsp
    have hc1 : ChainOk st1 := by
      obtain ⟨hch, hlast⟩ := hcd
      exact ⟨by rw [hsp.2]; exact hch, by rw [hsp.2, hsp.1]; exact hlast⟩
    have hdg : st1.progress.doneGroups = st.progress.doneGroups := by
      rw [hsp.1]
      rfl
    have htg : st1.progress.totalGroups = st.progress.totalGroups := by
      rw [hsp.1]
      rfl
    match r1 with
    | .error e => exact ⟨hc1, hdg, htg⟩
    | .ok .skipped => exact ⟨hc1, hdg, htg⟩
    | .ok .processed =>
      refine ⟨setProgress_chainOk hc1 (Or.inl (globLe_refl_fields rfl rfl)), ?_, ?_⟩
      · simp only [setProgress]
        exact hdg
      · simp only [setProgress]
        exact htg

theorem fullBranch_chain (g : Group) (sorted : List Snapshot) (st : St) (hc : ChainOk st) :
    ChainOk (fullBranch g sorted st).2 ∧
      (fullBranch g sorted st).2.progress.doneGroups = st.progress.doneGroups ∧
      (fullBranch g sorted st).2.progress.totalGroups = st.progress.totalGroups := by
  unfold fullBranch
  dsimp only
  obtain ⟨ha, hb, hcc⟩ := snapsLoop_chain g sorted 0
    (setProgress st { st.progress with groupSnapshots := sorted.length })
    (setProgress_chainOk hc (Or.inl (globLe_refl_fields rfl rfl)))
  refine ⟨ha, ?_, ?_⟩
  · rw [hb]
    rfl
  · rw [hcc]
    rfl

theorem processGroup_chain (lo : Bool) (n : Nat) (g : Group) (st : St) (hc : ChainOk st)
    (hdg : st.progress.doneGroups ≤ n) :
    ChainOk (processGroup lo n g st).2 ∧ (processGroup lo n g st).2.progress.doneGroups = n := by
  unfold processGroup
  dsimp only
  have hca : ChainOk (setProgress st { st.progress with doneGroups := n }) :=
    setProgress_chainOk hc (Or.inl ⟨Nat.le_refl _, hdg⟩)
  have hcb : ChainOk (setProgress (setProgress st { st.progress with doneGroups := n })
      { (setProgress st { st.progress with doneGroups := n }).progress with
        doneSnapshots := 0 }) :=
    setProgress_chainOk hca (Or.inl (globLe_refl_fields rfl rfl))
  have hcc : ChainOk (setProgress (setProgress (setProgress st
      { st.progress with doneGroups := n })
      { (setProgress st { st.progress with doneGroups := n }).progress with
        doneSnapshots := 0 })
      { (setProgress (setProgress st { st.progress with doneGroups := n })
        { (setProgress st { st.progress with doneGroups := n }).progress with
          doneSnapshots := 0 }).progress with groupSnapshots := 0 }) :=
    setProgress_chainOk hcb (Or.inl (globLe_refl_fields rfl rfl))
  dsimp only at hcc
  split
  · exact ⟨hcc, rfl⟩
  · split
    · refine ⟨(latestBranch_chain g _ _ hcc).1, ?_⟩
      rw [(latestBranch_chain g _ _ hcc).2.1]
      rfl
    · refine ⟨(fullBranch_chain g _ _ hcc).1, ?_⟩
      rw [(fullBranch_chain g _ _ hcc).2.1]
      rfl

theorem groupsLoop_chain (lo : Bool) (l : List Group) :
    ∀ (n : Nat) (st : St), ChainOk st → st.progress.doneGroups ≤ n →
      ChainOk (groupsLoop lo l n st).2 := by
  induction l with
  | nil => exact fun n st hc _ => hc
  | cons g rest ih =>
    intro n st hc hdg
    rw [groupsLoop]
    rcases h : processGroup lo n g st with ⟨r1, st1⟩
    have hpc := processGroup_chain lo n g st hc hdg
    rw [h] at hpc
    match r1 with
    | .error e => exact hpc.1
    | .ok _ => exact ih (n + 1) st1 hpc.1 (by rw [hpc.2]; exact Nat.le_succ n)

theorem backupWorker_chain (su : Setup) (ch : ChangerSetup) (nsGroups : List (List Group))
    (pw : PoolWriterOracle) (abort : Bool) (elapsed : Nat) :
    List.Chain' globLe (backupWorker su ch nsGroups pw abort elapsed).2.progressLog := by
  unfold backupWorker
  dsimp only
  match hu : updateMediaOnlineStatus ch with
  | .error e => exact List.chain'_nil
  | .ok _ =>
    dsimp only
    match hi : pw.initResp with
    | .error e => exact List.chain'_nil
    | .ok _ =>
      dsimp only
      rcases hL : groupsLoop (su.latestOnly.getD false) (selectGroups su.groupFilter nsGroups)
          0 (setProgress (initSt pw abort elapsed)
            (StoreProgress.make (selectGroups su.groupFilter nsGroups).length)) with ⟨rL, stL⟩
      have hinit : ChainOk (setProgress (initSt pw abort elapsed)
          (StoreProgress.make (selectGroups su.groupFilter nsGroups).length)) :=
        setProgress_chainOk ⟨List.chain'_nil, Or.inl rfl⟩ (Or.inr rfl)
      have hcl : ChainOk stL := by
        have := groupsLoop_chain (su.latestOnly.getD false)
          (selectGroups su.groupFilter nsGroups) 0
          (setProgress (initSt pw abort elapsed)
            (StoreProgress.make (selectGroups su.groupFilter nsGroups).length))
          hinit (Nat.le_refl 0)
        rw [hL] at this
        exact this
      match rL with
      | .error e => exact hcl.1
      | .ok _ =>
        dsimp only
        have TS := workerTail_spec su stL
        rw [TS.progressLog]
        exact hcl.1

/-! ## Order facts about the sort comparators -/

deriving instance DecidableEq for Snapshot

deriving instance DecidableEq for Group

theorem groupIdLe_total (a b : GroupId) : GroupId.le a b = true ∨ GroupId.le b a = true := by
  unfold GroupId.le
  simp only [decide_eq_true_eq]
  rcases lt_trichotomy a.ty.data b.ty.data with h | h | h
  · exact Or.inl (Or.inl h)
  · rcases le_total a.id.data b.id.data with h2 | h2
    · exact Or.inl (Or.inr ⟨h, h2⟩)
    · exact Or.inr (Or.inr ⟨h.symm, h2⟩)
  · exact Or.inr (Or.inl h)

theorem groupIdLe_trans {a b c : GroupId} (h1 : GroupId.le a b = true)
    (h2 : GroupId.le b c = true) : GroupId.le a c = true := by
  unfold GroupId.le at h1 h2 ⊢
  simp only [decide_eq_true_eq] at h1 h2 ⊢
  rcases h1 with h1 | ⟨h1e, h1le⟩
  · rcases h2 with h2 | ⟨h2e, h2le⟩
    · exact Or.inl (h1.trans h2)
    · exact Or.inl (by rw [← h2e]; exact h1)
  · rcases h2 with h2 | ⟨h2e, h2le⟩
    · exact Or.inl (by rw [h1e]; exact h2)
    · exact Or.inr ⟨h1e.trans h2e, h1le.trans h2le⟩

theorem sortGroups_sorted (l : List Group) :
    (sortGroups l).Pairwise (fun a b => GroupId.le a.gid b.gid = true) := by
  haveI ht : IsTotal Group (fun a b => GroupId.le a.gid b.gid = true) :=
    ⟨fun a b => groupIdLe_total a.gid b.gid⟩
  haveI htr : IsTrans Group (fun a b => GroupId.le a.gid b.gid = true) :=
    ⟨fun a b c h1 h2 => groupIdLe_trans h1 h2⟩
  exact List.sorted_insertionSort _ l

theorem sortSnapshots_sorted (l : List Snapshot) :
    (sortSnapshots l).Pairwise (fun a b => a.time ≤ b.time) := by
  haveI ht : IsTotal Snapshot (fun a b => a.time ≤ b.time) := ⟨fun a b => Nat.le_total _ _⟩
  haveI htr : IsTrans Snapshot (fun a b => a.time ≤ b.time) :=
    ⟨fun a b c h1 h2 => Nat.le_trans h1 h2⟩
  exact List.sorted_insertionSort _ l

theorem selectGroups_pairwise (f : Option (GroupId → Bool)) (nsGroups : List (List Group)) :
    (selectGroups f nsGroups).Pairwise (fun a b => GroupId.le a.gid b.gid = true) := by
  unfold selectGroups
  match f with
  | none => exact sortGroups_sorted _
  | some p =>
    exact List.Pairwise.sublist (List.filter_sublist _) (sortGroups_sorted _)

theorem selectGroups_none_perm (nsGroups : List (List Group)) :
    (selectGroups none nsGroups).Perm nsGroups.flatten :=
  List.perm_insertionSort _ _

theorem sortSnapshots_perm (l : List Snapshot) : (sortSnapshots l).Perm l :=
  List.perm_insertionSort _ l

/-- In a list sorted oldest-first the last entry has the maximal time. -/
theorem sorted_getLast_max : ∀ {l : List Snapshot} {m : Snapshot},
    l.Pairwise (fun a b => a.time ≤ b.time) → l.getLast? = some m →
    ∀ x ∈ l, x.time ≤ m.time
  | [], m, _, hm => by cases hm
  | [a], m, _, hm => by
    rw [List.getLast?_singleton] at hm
    cases hm
    intro x hx
    rw [List.mem_singleton] at hx
    subst hx
    exact Nat.le_refl _
  | a :: b :: r, m, hp, hm => by
    rw [List.getLast?_cons_cons] at hm
    rw [List.pairwise_cons] at hp
    intro x hx
    rw [List.mem_cons] at hx
    rcases hx with rfl | hx
    · exact hp.1 m (getLast?_mem_list hm)
    · exact sorted_getLast_max hp.2 hm x hx

/-! ## Event-classifier facts used by the claim statements -/

theorem loopEv_facts {e : Event} (h : LoopEv e = true) :
    isCommitEv e = false ∧ isFinalActionEv e = false ∧ isCatalogWriteEv e = false := by
  unfold LoopEv at h
  simp only [Bool.and_eq_true, Bool.not_eq_true'] at h
  exact ⟨h.1.1, h.1.2, h.2⟩

theorem tailRestEv_facts {e : Event} (h : TailRestEv e = true) :
    isCommitEv e = false ∧ isArchiveWriteEv e = false := by
  unfold TailRestEv at h
  simp only [Bool.and_eq_true, Bool.not_eq_true'] at h
  exact ⟨h.1.1.1, h.1.1.2⟩

theorem countP_zero_of_all {t : List Event} {p q : Event → Bool}
    (himp : ∀ e, p e = true → q e = false) (h : t.all p = true) : t.countP q = 0 := by
  rw [List.countP_eq_zero]
  intro e he
  simp only [List.all_eq_true] at h
  rw [himp e (h e he)]
  exact Bool.false_ne_true

/-! ## Claim theorems -/

/-- **C1.** If `append_snapshot_archive` reports the archive did not fit
(`Ok(false)`, LEOM mid-archive), `backup_snapshot`'s archive phase marks
the current medium full, loads one new writable medium, and retries the
whole snapshot archive exactly once: the call trace shows exactly the
two loads and two append attempts (no third medium), the second not-done
answer is the fatal `snapshotSecondMedia` error, and the summary — in
particular its successful-snapshot list — is untouched, so the snapshot
is not counted as successful. -/
theorem snapshot_archive_retry_once {info : Snapshot} {st : St} {u1 u2 : Nat} {d2 : Bool}
    {lrest : List (Except String Nat)} {srest : List (Except String Bool)}
    {frest : List (Except String Unit)}
    (hj : info.joinOk = true) (hab : st.abort = false)
    (hl : st.pw.loadResp = .ok u1 :: .ok u2 :: lrest)
    (hs : st.pw.snapResp = .ok false :: .ok d2 :: srest)
    (hf : st.pw.fullResp = .ok () :: frest) :
    (archivePhase info st).2.trace = st.trace ++
      [Event.loadMedia (.ok u1), Event.appendSnapshotArchive (.ok false),
        Event.setMediaFull u1 (.ok ()), Event.loadMedia (.ok u2),
        Event.appendSnapshotArchive (.ok d2)] ∧
    (archivePhase info st).1 =
      (if d2 then Except.ok SnapResult.success else Except.error Err.snapshotSecondMedia) ∧
    (archivePhase info st).2.summary = st.summary ∧
    (archivePhase info st).2.pw.loadResp = lrest ∧
    (archivePhase info st).2.pw.snapResp = srest := by
  obtain ⟨pw, ab, el, tr, pr, plog, sm, er, nc⟩ := st
  obtain ⟨ir, lr, fr, sr, cr, cm, ex, ej, ul, cont⟩ := pw
  dsimp only at hab hl hs hf
  subst hab hl hs hf
  cases d2 <;>
    simp [archivePhase, loadMedia, appendSnapArchive, setFull, takeResp, recordEvent, hj]

def c1Snap : Snapshot :=
  { time := 100, finished := true, read := .readable, spawn := .ok (),
    chunks := [], chunkResp := [], joinOk := true }

def c1St : St :=
  { pw := { initResp := .ok (), loadResp := [.ok 7, .ok 8], fullResp := [.ok ()],
            snapResp := [.ok false, .ok false], catalogResp := [], commitResp := .ok (),
            exportResp := .ok (), ejectResp := .ok (), usedLabels := .ok [],
            contains := fun _ => false },
    abort := false, elapsed := 0, trace := [], progress := StoreProgress.make 0,
    progressLog := [], summary := { snapshotList := [], usedTapes := none, duration := none },
    errors := false, needCatalog := false }

/-- Witness for C1: a concrete snapshot whose archive does not fit on
either medium ends in the fatal second-media error with the summary
untouched. -/
theorem snapshot_archive_retry_once_witness :
    (archivePhase c1Snap c1St).1 = Except.error Err.snapshotSecondMedia ∧
    (archivePhase c1Snap c1St).2.summary = c1St.summary ∧
    (archivePhase c1Snap c1St).2.pw.loadResp = [] := by
  obtain ⟨-, h2, h3, h4, -⟩ :=
    @snapshot_archive_retry_once c1Snap c1St 7 8 false [] [] [] rfl rfl rfl rfl rfl
  exact ⟨h2.trans rfl, h3, h4⟩

/-- **C2.** If any snapshot of the run ends with a per-snapshot `Error`
outcome, `backup_worker` does not return success for the job, while every
snapshot transferred successfully (before or after the failing one) is
still listed in the summary's snapshot list. -/
theorem per_snapshot_error_fails_job (su : Setup) (ch : ChangerSetup)
    (nsGroups : List (List Group)) (pw : PoolWriterOracle) (abort : Bool) (elapsed : Nat)
    (sid : SnapId)
    (h : Event.snapshotDone sid .error ∈
      (backupWorker su ch nsGroups pw abort elapsed).2.trace) :
    (backupWorker su ch nsGroups pw abort elapsed).1 ≠ .ok () ∧
    ∀ sid2, Event.snapshotDone sid2 .success ∈
        (backupWorker su ch nsGroups pw abort elapsed).2.trace →
      relPath sid2 ∈ (backupWorker su ch nsGroups pw abort elapsed).2.summary.snapshotList := by
  have WS := backupWorker_spec su ch nsGroups pw abort elapsed
  refine ⟨fun hok => ?_, WS.runInv.successRecorded⟩
  have herr := WS.runInv.errFlag sid h
  rw [WS.okErrors hok] at herr
  cases herr

def c2Su : Setup :=
  { latestOnly := none, exportMediaSet := none, ejectMedia := none, groupFilter := none }

def c2S1 : Snapshot :=
  { time := 1, finished := true, read := .readable, spawn := .ok (),
    chunks := [], chunkResp := [], joinOk := true }

def c2S2 : Snapshot :=
  { time := 2, finished := true, read := .openErr, spawn := .ok (),
    chunks := [], chunkResp := [], joinOk := true }

def c2S3 : Snapshot :=
  { time := 3, finished := true, read := .readable, spawn := .ok (),
    chunks := [], chunkResp := [], joinOk := true }

def c2G1 : Group := { ns := "ns", gid := { ty := "vm", id := "100" }, snaps := [c2S1] }

def c2G2 : Group := { ns := "ns", gid := { ty := "vm", id := "200" }, snaps := [c2S2] }

def c2G3 : Group := { ns := "ns", gid := { ty := "vm", id := "300" }, snaps := [c2S3] }

def c2Ns : List (List Group) := [[c2G1, c2G2, c2G3]]

def c2Pw : PoolWriterOracle :=
  { initResp := .ok (), loadResp := [.ok 1, .ok 2, .ok 3], fullResp := [],
    snapResp := [.ok true, .ok true], catalogResp := [.ok true], commitResp := .ok (),
    exportResp := .ok (), ejectResp := .ok (), usedLabels := .ok ["tape1"],
    contains := fun _ => false }

set_option maxHeartbeats 2000000 in
/-- Witness for C2: with three groups where the middle group's only
snapshot is unreadable, the job fails as a whole while the snapshots of
groups 1 and 3 are listed as successful in the summary. -/
theorem per_snapshot_error_fails_job_witness :
    Event.snapshotDone (mkSid c2G2 c2S2) SnapResult.error ∈
      (backupWorker c2Su ChangerSetup.noChanger c2Ns c2Pw false 0).2.trace ∧
    (backupWorker c2Su ChangerSetup.noChanger c2Ns c2Pw false 0).1 ≠ Except.ok () ∧
    relPath (mkSid c2G1 c2S1) ∈
      (backupWorker c2Su ChangerSetup.noChanger c2Ns c2Pw false 0).2.summary.snapshotList ∧
    relPath (mkSid c2G3 c2S3) ∈
      (backupWorker c2Su ChangerSetup.noChanger c2Ns c2Pw false 0).2.summary.snapshotList := by
  have h : Event.snapshotDone (mkSid c2G2 c2S2) SnapResult.error ∈
      (backupWorker c2Su ChangerSetup.noChanger c2Ns c2Pw false 0).2.trace := by decide
  obtain ⟨h1, h2⟩ :=
    per_snapshot_error_fails_job c2Su ChangerSetup.noChanger c2Ns c2Pw false 0
      (mkSid c2G2 c2S2) h
  exact ⟨h, h1, h2 _ (by decide), h2 _ (by decide)⟩

/-- **C3** (amended). On every successful run of `backup_worker`,
`commit()` is called exactly once; all chunk- and snapshot-archive writes
precede it and all export/eject actions follow it — but the catalog
archive write is *not* before the commit: no catalog write occurs before
the commit entry (the catalog block of lines 345–362 runs after the
commit of line 343), contrary to the spec's ordering. -/
theorem commit_placement (su : Setup) (ch : ChangerSetup) (nsGroups : List (List Group))
    (pw : PoolWriterOracle) (abort : Bool) (elapsed : Nat)
    (h : (backupWorker su ch nsGroups pw abort elapsed).1 = .ok ()) :
    ∃ t1 rc rest,
      (backupWorker su ch nsGroups pw abort elapsed).2.trace = t1 ++ Event.commit rc :: rest ∧
      (backupWorker su ch nsGroups pw abort elapsed).2.trace.countP isCommitEv = 1 ∧
      t1.all (fun e => !(isFinalActionEv e)) = true ∧
      t1.all (fun e => !(isCatalogWriteEv e)) = true ∧
      rest.all (fun e => !(isArchiveWriteEv e)) = true := by
  have WS := backupWorker_spec su ch nsGroups pw abort elapsed
  obtain ⟨t1, rc, rest, hT, hL, hR⟩ := WS.okTailed h
  refine ⟨t1, rc, rest, hT, ?_, ?_, ?_, ?_⟩
  · rw [hT, List.countP_append,
      countP_zero_of_all (fun e he => (loopEv_facts he).1) hL,
      List.countP_cons_of_pos _ _ rfl,
      countP_zero_of_all (fun e he => (tailRestEv_facts he).1) hR]
  · exact all_imp (fun e he => by rw [(loopEv_facts he).2.1]; rfl) hL
  · exact all_imp (fun e he => by rw [(loopEv_facts he).2.2]; rfl) hL
  · exact all_imp (fun e he => by rw [(tailRestEv_facts he).2]; rfl) hR

def c3Su : Setup :=
  { latestOnly := none, exportMediaSet := none, ejectMedia := none, groupFilter := none }

def c3S : Snapshot :=
  { time := 5, finished := true, read := .readable, spawn := .ok (),
    chunks := [], chunkResp := [], joinOk := true }

def c3G : Group := { ns := "ns", gid := { ty := "vm", id := "100" }, snaps := [c3S] }

def c3Ns : List (List Group) := [[c3G]]

def c3Pw : PoolWriterOracle :=
  { initResp := .ok (), loadResp := [.ok 1, .ok 2], fullResp := [],
    snapResp := [.ok true], catalogResp := [.ok true], commitResp := .ok (),
    exportResp := .ok (), ejectResp := .ok (), usedLabels := .ok ["tape1"],
    contains := fun _ => false }

set_option maxHeartbeats 2000000 in
/-- Counterexample to C3 as stated: a successful run in which a catalog
archive write is issued strictly *after* the commit entry, so commit is
not "after all archive writes". -/
theorem commit_after_catalog_refuted :
    (backupWorker c3Su ChangerSetup.noChanger c3Ns c3Pw false 0).1 = Except.ok () ∧
    catalogAfterCommit
      (backupWorker c3Su ChangerSetup.noChanger c3Ns c3Pw false 0).2.trace = true := by
  decide

set_option maxHeartbeats 2000000 in
/-- Witness for the amended C3 on a concrete successful run. -/
theorem commit_placement_witness :
    (backupWorker c3Su ChangerSetup.noChanger c3Ns c3Pw false 0).1 = Except.ok () ∧
    ∃ t1 rc rest,
      (backupWorker c3Su ChangerSetup.noChanger c3Ns c3Pw false 0).2.trace =
        t1 ++ Event.commit rc :: rest ∧
      (backupWorker c3Su ChangerSetup.noChanger c3Ns c3Pw false 0).2.trace.countP
        isCommitEv = 1 ∧
      t1.all (fun e => !(isFinalActionEv e)) = true ∧
      t1.all (fun e => !(isCatalogWriteEv e)) = true ∧
      rest.all (fun e => !(isArchiveWriteEv e)) = true :=
  ⟨by decide, commit_placement c3Su ChangerSetup.noChanger c3Ns c3Pw false 0 (by decide)⟩

/-- **C4.** Every snapshot the dedup index `contains_snapshot` reports as
already present on the media set is skipped in *every* run — also in
mixed re-runs after partial failure where other snapshots are
transferred: `backup_snapshot` is never invoked for it and no outcome is
recorded for it.  Moreover, when every enumerated snapshot is already
contained (a re-run over an unchanged media set with nothing left to
do), no `backup_snapshot` call happens at all and the summary's snapshot
list stays empty — nothing new is transferred. -/
theorem contained_snapshots_skipped (su : Setup) (ch : ChangerSetup)
    (nsGroups : List (List Group)) (pw : PoolWriterOracle) (abort : Bool) (elapsed : Nat) :
    (∀ sid, pw.contains sid = true →
        Event.snapshotBackup sid ∉ (backupWorker su ch nsGroups pw abort elapsed).2.trace ∧
        ∀ r, Event.snapshotDone sid r ∉
          (backupWorker su ch nsGroups pw abort elapsed).2.trace) ∧
    ((∀ g ∈ nsGroups.flatten, ∀ s ∈ g.snaps, pw.contains (mkSid g s) = true) →
      (backupWorker su ch nsGroups pw abort elapsed).2.trace.any isSnapshotCallEv = false ∧
      (backupWorker su ch nsGroups pw abort elapsed).2.summary.snapshotList = []) := by
  have WS := backupWorker_spec su ch nsGroups pw abort elapsed
  have hcont := backupWorker_contains su ch nsGroups pw abort elapsed
  have hskip : ∀ sid, pw.contains sid = true →
      Event.snapshotBackup sid ∉ (backupWorker su ch nsGroups pw abort elapsed).2.trace ∧
      ∀ r, Event.snapshotDone sid r ∉
        (backupWorker su ch nsGroups pw abort elapsed).2.trace :=
    fun sid hc => WS.runInv.skipped sid (by rw [hcont]; exact hc)
  refine ⟨hskip, fun hall => ?_⟩
  have hnocall : (backupWorker su ch nsGroups pw abort elapsed).2.trace.any
      isSnapshotCallEv = false := by
    cases hany : (backupWorker su ch nsGroups pw abort elapsed).2.trace.any isSnapshotCallEv
    · rfl
    · exfalso
      obtain ⟨e, he, hp⟩ := List.any_eq_true.mp hany
      cases e <;> simp [isSnapshotCallEv] at hp
      case snapshotBackup sid =>
        obtain ⟨g, hg, s, hs, hf, hEq⟩ :=
          backupWorker_callEvents su ch nsGroups pw abort elapsed sid he
        subst hEq
        exact (hskip _ (hall g hg s hs)).1 he
  refine ⟨hnocall, ?_⟩
  have hnodone : (backupWorker su ch nsGroups pw abort elapsed).2.trace.any
      isSnapDoneEv = false := by
    cases hd : (backupWorker su ch nsGroups pw abort elapsed).2.trace.any isSnapDoneEv
    · rfl
    · rw [WS.runInv.doneCall hd] at hnocall
      cases hnocall
  have hcount : (backupWorker su ch nsGroups pw abort elapsed).2.trace.countP
      isSuccessDoneEv = 0 := by
    rw [List.countP_eq_zero]
    intro e he
    simp only [List.any_eq_false, Bool.not_eq_true] at hnodone
    rw [not_snapDone_not_success (hnodone e he)]
    exact Bool.false_ne_true
  have hlen := WS.runInv.countEq
  rw [hcount] at hlen
  exact List.eq_nil_of_length_eq_zero hlen

def c4Su : Setup :=
  { latestOnly := none, exportMediaSet := none, ejectMedia := none, groupFilter := none }

def c4S1 : Snapshot :=
  { time := 9, finished := true, read := .readable, spawn := .ok (),
    chunks := [], chunkResp := [], joinOk := true }

def c4S2 : Snapshot :=
  { time := 10, finished := true, read := .readable, spawn := .ok (),
    chunks := [], chunkResp := [], joinOk := true }

def c4G1 : Group := { ns := "ns", gid := { ty := "vm", id := "100" }, snaps := [c4S1] }

def c4G2 : Group := { ns := "ns", gid := { ty := "vm", id := "200" }, snaps := [c4S2] }

def c4Ns : List (List Group) := [[c4G1, c4G2]]

/-- A partial-failure re-run: the media set already holds group
`vm/100`'s snapshot but not group `vm/200`'s. -/
def c4Pw : PoolWriterOracle :=
  { initResp := .ok (), loadResp := [.ok 1, .ok 2], fullResp := [],
    snapResp := [.ok true], catalogResp := [.ok true], commitResp := .ok (),
    exportResp := .ok (), ejectResp := .ok (), usedLabels := .ok [],
    contains := fun sid => sid.g.id == "100" }

/-- A re-run over an unchanged media set: everything already contained. -/
def c4PwAll : PoolWriterOracle :=
  { initResp := .ok (), loadResp := [], fullResp := [],
    snapResp := [], catalogResp := [], commitResp := .ok (),
    exportResp := .ok (), ejectResp := .ok (), usedLabels := .ok [],
    contains := fun _ => true }

set_option maxHeartbeats 2000000 in
/-- Witness for C4, in two scenarios.  Mixed re-run after partial
failure: the contained snapshot of group `vm/100` is skipped (no
`backup_snapshot` call for it) while group `vm/200`'s snapshot is
transferred and listed.  Full re-run: with everything contained, no
`backup_snapshot` call happens and the summary list stays empty. -/
theorem contained_snapshots_skipped_witness :
    (c4Pw.contains (mkSid c4G1 c4S1) = true ∧
      Event.snapshotBackup (mkSid c4G1 c4S1) ∉
        (backupWorker c4Su ChangerSetup.noChanger c4Ns c4Pw false 0).2.trace ∧
      relPath (mkSid c4G2 c4S2) ∈
        (backupWorker c4Su ChangerSetup.noChanger c4Ns c4Pw false 0).2.summary.snapshotList) ∧
    ((backupWorker c4Su ChangerSetup.noChanger c4Ns c4PwAll false 0).2.trace.any
        isSnapshotCallEv = false ∧
      (backupWorker c4Su ChangerSetup.noChanger c4Ns c4PwAll false 0).2.summary.snapshotList
        = []) := by
  refine ⟨⟨by decide, ?_, by decide⟩, ?_⟩
  · exact ((contained_snapshots_skipped c4Su ChangerSetup.noChanger c4Ns c4Pw false 0).1
      (mkSid c4G1 c4S1) (by decide)).1
  · exact (contained_snapshots_skipped c4Su ChangerSetup.noChanger c4Ns c4PwAll false 0).2
      (by decide)

/-- **C5** (amended). The processing order is sorted w.r.t. the group
*identity* comparator (backup type, then id) and is a permutation of the
discovered groups, and within a group the finished snapshots are
processed oldest-first — but because the comparator looks only at the
identity and not at the namespace, groups of equal identity from
different namespaces tie, and their relative order is *not* independent
of the namespace discovery order (see the counterexample). -/
theorem group_processing_order (f : Option (GroupId → Bool)) (nsGroups : List (List Group))
    (l : List Snapshot) :
    (selectGroups f nsGroups).Pairwise (fun a b => GroupId.le a.gid b.gid = true) ∧
    (selectGroups none nsGroups).Perm nsGroups.flatten ∧
    (sortSnapshots l).Pairwise (fun a b => a.time ≤ b.time) ∧
    (sortSnapshots l).Perm l :=
  ⟨selectGroups_pairwise f nsGroups, selectGroups_none_perm nsGroups,
    sortSnapshots_sorted l, sortSnapshots_perm l⟩

def c5Su : Setup :=
  { latestOnly := none, exportMediaSet := none, ejectMedia := none, groupFilter := none }

def c5S : Snapshot :=
  { time := 1, finished := true, read := .readable, spawn := .ok (),
    chunks := [], chunkResp := [], joinOk := true }

def c5GA : Group := { ns := "nsA", gid := { ty := "vm", id := "100" }, snaps := [c5S] }

def c5GB : Group := { ns := "nsB", gid := { ty := "vm", id := "100" }, snaps := [c5S] }

def c5Pw : PoolWriterOracle :=
  { initResp := .ok (), loadResp := [], fullResp := [],
    snapResp := [], catalogResp := [], commitResp := .ok (),
    exportResp := .ok (), ejectResp := .ok (), usedLabels := .ok [],
    contains := fun _ => true }

set_option maxHeartbeats 2000000 in
/-- Counterexample to C5 as stated: the same multiset of discovered
groups — two groups with the *same* identity `vm/100` in namespaces
`nsA` and `nsB` — is processed in different orders depending on the
namespace discovery order, so the processing order is not independent of
it. -/
theorem group_order_discovery_dependent :
    ([[c5GA], [c5GB]] : List (List Group)).flatten.Perm
      ([[c5GB], [c5GA]] : List (List Group)).flatten ∧
    (backupWorker c5Su ChangerSetup.noChanger [[c5GA], [c5GB]] c5Pw false 0).2.trace ≠
      (backupWorker c5Su ChangerSetup.noChanger [[c5GB], [c5GA]] c5Pw false 0).2.trace := by
  constructor
  · decide
  · decide

theorem latestBranch_groupSnaps (g : Group) (sorted : List Snapshot) (st : St) :
    (latestBranch g sorted st).2.progress.groupSnapshots = 1 := by
  unfold latestBranch
  dsimp only
  rcases hL : sorted.getLast? with _ | info
  · rfl
  · dsimp only
    rcases h : snapStep g info (setProgress st { st.progress with groupSnapshots := 1 }) with
      ⟨r1, st1⟩
    have hsp := snapStep_prog g info (setProgress st { st.progress with groupSnapshots := 1 })
    rw [h] at hsp
    match r1 with
    | .error e =>
      rw [hsp.1]
      rfl
    | .ok .skipped =>
      rw [hsp.1]
      rfl
    | .ok .processed =>
      show (setProgress st1 { st1.progress with doneSnapshots := 1 }).progress.groupSnapshots
        = 1
      simp only [setProgress]
      rw [hsp.1]
      rfl

theorem latestBranch_call_last (g : Group) (sorted : List Snapshot) (st : St) {info : Snapshot}
    (hL : sorted.getLast? = some info) :
    ∀ sid, Event.snapshotBackup sid ∈ (latestBranch g sorted st).2.trace →
      Event.snapshotBackup sid ∈ st.trace ∨ sid = mkSid g info := by
  unfold latestBranch
  dsimp only
  rw [hL]
  dsimp only
  rcases h : snapStep g info (setProgress st { st.progress with groupSnapshots := 1 }) with
    ⟨r1, st1⟩
  have hstep : ∀ sid, Event.snapshotBackup sid ∈ st1.trace →
      Event.snapshotBackup sid ∈ st.trace ∨ sid = mkSid g info := by
    intro sid2 hm2
    have := snapStep_callEvents g info
      (setProgress st { st.progress with groupSnapshots := 1 }) sid2
    rw [h] at this
    rcases this hm2 with hp | hp
    · exact Or.inl (by simpa [setProgress] using hp)
    · exact Or.inr hp
  match r1 with
  | .error e => exact hstep
  | .ok .skipped => exact hstep
  | .ok .processed =>
    intro sid hm
    exact hstep sid (by simpa [setProgress] using hm)

/-- **C6.** In latest-only mode, for a group with at least one finished
snapshot, the only snapshot ever handed to `backup_snapshot` is the
newest finished one (every finished snapshot's time is at most its
time), and the group's progress accounting reports exactly 1 snapshot
unit. -/
theorem latest_only_newest (n : Nat) (g : Group) (st : St)
    (hne : (g.snaps.filter (fun s => s.finished)).isEmpty = false) :
    ∃ info, (sortSnapshots (g.snaps.filter (fun s => s.finished))).getLast? = some info ∧
      info ∈ g.snaps ∧ info.finished = true ∧
      (∀ s ∈ g.snaps, s.finished = true → s.time ≤ info.time) ∧
      (∀ sid, Event.snapshotBackup sid ∈ (processGroup true n g st).2.trace →
        Event.snapshotBackup sid ∈ st.trace ∨ sid = mkSid g info) ∧
      (processGroup true n g st).2.progress.groupSnapshots = 1 := by
  have hfne : g.snaps.filter (fun s => s.finished) ≠ [] := by
    intro h0
    rw [h0] at hne
    cases hne
  have hsne : sortSnapshots (g.snaps.filter (fun s => s.finished)) ≠ [] := by
    intro h0
    apply hfne
    have hp := sortSnapshots_perm (g.snaps.filter (fun s => s.finished))
    rw [h0] at hp
    exact hp.symm.eq_nil
  obtain ⟨info, hinfo⟩ : ∃ info,
      (sortSnapshots (g.snaps.filter (fun s => s.finished))).getLast? = some info := by
    cases hL : (sortSnapshots (g.snaps.filter (fun s => s.finished))).getLast? with
    | none => exact absurd (List.getLast?_eq_none_iff.mp hL) hsne
    | some i => exact ⟨i, rfl⟩
  obtain ⟨hmem, hfin⟩ := List.mem_filter.mp (mem_sortSnapshots (getLast?_mem_list hinfo))
  obtain ⟨sc, hred, htr⟩ : ∃ sc, processGroup true n g st = latestBranch g
      (sortSnapshots (g.snaps.filter (fun s => s.finished))) sc ∧ sc.trace = st.trace := by
    refine ⟨setProgress (setProgress (setProgress st { st.progress with doneGroups := n })
        { (setProgress st { st.progress with doneGroups := n }).progress with
          doneSnapshots := 0 })
        { (setProgress (setProgress st { st.progress with doneGroups := n })
            { (setProgress st { st.progress with doneGroups := n }).progress with
              doneSnapshots := 0 }).progress with groupSnapshots := 0 }, ?_, rfl⟩
    unfold processGroup
    dsimp only
    simp only [hne, Bool.false_eq_true, eq_self_iff_true, if_false, if_true]
  refine ⟨info, hinfo, hmem, hfin, ?_, ?_, ?_⟩
  · intro s hs hf
    have hsf : s ∈ g.snaps.filter (fun x => x.finished) := List.mem_filter.mpr ⟨hs, hf⟩
    have hss : s ∈ sortSnapshots (g.snaps.filter (fun x => x.finished)) :=
      (sortSnapshots_perm _).mem_iff.mpr hsf
    exact sorted_getLast_max (sortSnapshots_sorted _) hinfo s hss
  · intro sid hm
    rw [hred] at hm
    rcases latestBranch_call_last g _ sc hinfo sid hm with hp | hp
    · exact Or.inl (htr ▸ hp)
    · exact Or.inr hp
  · rw [hred]
    exact latestBranch_groupSnaps g _ sc

def c6Pw : PoolWriterOracle :=
  { initResp := .ok (), loadResp := [.ok 1], fullResp := [],
    snapResp := [.ok true], catalogResp := [], commitResp := .ok (),
    exportResp := .ok (), ejectResp := .ok (), usedLabels := .ok [],
    contains := fun _ => false }

def c6S1 : Snapshot :=
  { time := 1, finished := true, read := .readable, spawn := .ok (),
    chunks := [], chunkResp := [], joinOk := true }

def c6S2 : Snapshot :=
  { time := 2, finished := true, read := .readable, spawn := .ok (),
    chunks := [], chunkResp := [], joinOk := true }

def c6S3 : Snapshot :=
  { time := 3, finished := true, read := .readable, spawn := .ok (),
    chunks := [], chunkResp := [], joinOk := true }

def c6G : Group := { ns := "ns", gid := { ty := "vm", id := "100" }, snaps := [c6S1, c6S2, c6S3] }

set_option maxHeartbeats 2000000 in
/-- Witness for C6: a group with snapshots at times 1 < 2 < 3 in
latest-only mode. -/
theorem latest_only_newest_witness :
    (c6G.snaps.filter (fun s => s.finished)).isEmpty = false ∧
    ∃ info, (sortSnapshots (c6G.snaps.filter (fun s => s.finished))).getLast? = some info ∧
      info ∈ c6G.snaps ∧ info.finished = true ∧
      (∀ s ∈ c6G.snaps, s.finished = true → s.time ≤ info.time) ∧
      (∀ sid, Event.snapshotBackup sid ∈
          (processGroup true 0 c6G (initSt c6Pw false 0)).2.trace →
        Event.snapshotBackup sid ∈ (initSt c6Pw false 0).trace ∨ sid = mkSid c6G info) ∧
      (processGroup true 0 c6G (initSt c6Pw false 0)).2.progress.groupSnapshots = 1 :=
  ⟨by decide, latest_only_newest 0 c6G (initSt c6Pw false 0) (by decide)⟩

/-- **C7** (amended). On a successful run a catalog archive is appended
iff some snapshot was *attempted* (`backup_snapshot` was entered) — not
iff data was actually written: `need_catalog` is set before the transfer
result is known, so a run whose only snapshot vanished appends a catalog
even though nothing was written (see the counterexample). -/
theorem catalog_iff_attempted (su : Setup) (ch : ChangerSetup) (nsGroups : List (List Group))
    (pw : PoolWriterOracle) (abort : Bool) (elapsed : Nat)
    (h : (backupWorker su ch nsGroups pw abort elapsed).1 = .ok ()) :
    (backupWorker su ch nsGroups pw abort elapsed).2.trace.any isCatalogWriteEv =
      (backupWorker su ch nsGroups pw abort elapsed).2.trace.any isSnapshotCallEv := by
  have WS := backupWorker_spec su ch nsGroups pw abort elapsed
  exact (WS.okCat h).trans WS.runInv.catFlag

def c7Su : Setup :=
  { latestOnly := none, exportMediaSet := none, ejectMedia := none, groupFilter := none }

def c7S : Snapshot :=
  { time := 4, finished := true, read := .vanished, spawn := .ok (),
    chunks := [], chunkResp := [], joinOk := true }

def c7G : Group := { ns := "ns", gid := { ty := "vm", id := "100" }, snaps := [c7S] }

def c7Ns : List (List Group) := [[c7G]]

def c7Pw : PoolWriterOracle :=
  { initResp := .ok (), loadResp := [.ok 1], fullResp := [],
    snapResp := [], catalogResp := [.ok true], commitResp := .ok (),
    exportResp := .ok (), ejectResp := .ok (), usedLabels := .ok [],
    contains := fun _ => false }

set_option maxHeartbeats 2000000 in
/-- Counterexample to C7 as stated: a successful run whose only snapshot
vanished writes no chunk or snapshot archive and records no successful
snapshot, yet a catalog archive is appended. -/
theorem catalog_on_vanished_run :
    (backupWorker c7Su ChangerSetup.noChanger c7Ns c7Pw false 0).1 = Except.ok () ∧
    (backupWorker c7Su ChangerSetup.noChanger c7Ns c7Pw false 0).2.trace.any
      isArchiveWriteEv = false ∧
    (backupWorker c7Su ChangerSetup.noChanger c7Ns c7Pw false 0).2.summary.snapshotList = [] ∧
    (backupWorker c7Su ChangerSetup.noChanger c7Ns c7Pw false 0).2.trace.any
      isCatalogWriteEv = true := by
  decide

set_option maxHeartbeats 2000000 in
/-- Witness for the amended C7 on the vanished-snapshot run: the catalog
write flag agrees with the snapshot-attempt flag. -/
theorem catalog_iff_attempted_witness :
    (backupWorker c7Su ChangerSetup.noChanger c7Ns c7Pw false 0).1 = Except.ok () ∧
    (backupWorker c7Su ChangerSetup.noChanger c7Ns c7Pw false 0).2.trace.any
        isCatalogWriteEv =
      (backupWorker c7Su ChangerSetup.noChanger c7Ns c7Pw false 0).2.trace.any
        isSnapshotCallEv :=
  ⟨by decide, catalog_iff_attempted c7Su ChangerSetup.noChanger c7Ns c7Pw false 0 (by decide)⟩

/-- **C8** (amended). A failing online-media-status refresh is *fatal*:
if any of the changer's label-text query, inventory load or status
reconciliation fails, `backup_worker` propagates that error and returns
immediately, before the pool writer is used or any snapshot is
transferred — the failure is not logged-and-ignored. -/
theorem refresh_failure_fatal (su : Setup) (ch : ChangerSetup) (nsGroups : List (List Group))
    (pw : PoolWriterOracle) (abort : Bool) (elapsed : Nat) (e : Err)
    (h : updateMediaOnlineStatus ch = .error e) :
    backupWorker su ch nsGroups pw abort elapsed = (.error e, initSt pw abort elapsed) := by
  unfold backupWorker
  rw [h]

def c8Su : Setup :=
  { latestOnly := none, exportMediaSet := none, ejectMedia := none, groupFilter := none }

def c8Ch : ChangerSetup :=
  .changer (.error "changer query failed") (.ok ()) (.ok ()) "sl0"

def c8S : Snapshot :=
  { time := 6, finished := true, read := .readable, spawn := .ok (),
    chunks := [], chunkResp := [], joinOk := true }

def c8G : Group := { ns := "ns", gid := { ty := "vm", id := "100" }, snaps := [c8S] }

def c8Ns : List (List Group) := [[c8G]]

def c8Pw : PoolWriterOracle :=
  { initResp := .ok (), loadResp := [.ok 1, .ok 2], fullResp := [],
    snapResp := [.ok true], catalogResp := [.ok true], commitResp := .ok (),
    exportResp := .ok (), ejectResp := .ok (), usedLabels := .ok [],
    contains := fun _ => false }

/-- Counterexample to C8 as stated: with a transferable snapshot waiting
and a pool writer that would let the whole job succeed, a failing
changer label-text query makes the job return that error with an empty
call trace — the transfer does not proceed. -/
theorem refresh_failure_not_ignored :
    (backupWorker c8Su c8Ch c8Ns c8Pw false 0).1 =
      Except.error (Err.env "changer query failed") ∧
    (backupWorker c8Su c8Ch c8Ns c8Pw false 0).2.trace = [] := by
  decide

/-- Witness for the amended C8 on the concrete failing changer. -/
theorem refresh_failure_fatal_witness :
    backupWorker c8Su c8Ch c8Ns c8Pw false 0 =
      (Except.error (Err.env "changer query failed"), initSt c8Pw false 0) :=
  refresh_failure_fatal c8Su c8Ch c8Ns c8Pw false 0 (Err.env "changer query failed") rfl

/-- **C9** (amended). Only the two *global* counters of `StoreProgress`
are monotone over the run: along the history of values assigned to the
progress tracker, `total_groups` and `done_groups` never decrease.  The
per-group counters are not monotone — `done_snapshots` and
`snapshots_in_current_group` are reset to 0 at every group boundary (see
the counterexample). -/
theorem global_counters_monotone (su : Setup) (ch : ChangerSetup)
    (nsGroups : List (List Group)) (pw : PoolWriterOracle) (abort : Bool) (elapsed : Nat) :
    List.Chain' globLe (backupWorker su ch nsGroups pw abort elapsed).2.progressLog :=
  backupWorker_chain su ch nsGroups pw abort elapsed

def c9Su : Setup :=
  { latestOnly := none, exportMediaSet := none, ejectMedia := none, groupFilter := none }

def c9S : Snapshot :=
  { time := 7, finished := true, read := .vanished, spawn := .ok (),
    chunks := [], chunkResp := [], joinOk := true }

def c9G1 : Group := { ns := "ns", gid := { ty := "vm", id := "100" }, snaps := [c9S] }

def c9G2 : Group := { ns := "ns", gid := { ty := "vm", id := "200" }, snaps := [] }

def c9Ns : List (List Group) := [[c9G1, c9G2]]

def c9Pw : PoolWriterOracle :=
  { initResp := .ok (), loadResp := [.ok 1], fullResp := [],
    snapResp := [], catalogResp := [.ok true], commitResp := .ok (),
    exportResp := .ok (), ejectResp := .ok (), usedLabels := .ok [],
    contains := fun _ => false }

set_option maxHeartbeats 2000000 in
/-- Counterexample to C9 as stated: with two groups, of which the first
processes one snapshot, the progress history is not pointwise
non-decreasing — entering the second group resets `done_snapshots`
from 1 back to 0. -/
theorem progress_counters_reset :
    monotoneBy progLe
      (backupWorker c9Su ChangerSetup.noChanger c9Ns c9Pw false 0).2.progressLog = false := by
  decide

/-- **C10.** When the run fails with the aggregate per-snapshot-errors
bail (`Err.jobErrors`), the `errors` flag is set, `commit()` has
succeeded, the requested export or eject action was performed — and the
bail happens *before* summary finalization, so the failed job's summary
has neither a used-tapes list nor a duration. -/
theorem job_error_tail_actions (su : Setup) (ch : ChangerSetup) (nsGroups : List (List Group))
    (pw : PoolWriterOracle) (abort : Bool) (elapsed : Nat)
    (h : (backupWorker su ch nsGroups pw abort elapsed).1 = .error .jobErrors) :
    (backupWorker su ch nsGroups pw abort elapsed).2.errors = true ∧
    Event.commit (.ok ()) ∈ (backupWorker su ch nsGroups pw abort elapsed).2.trace ∧
    (su.exportMediaSet.getD false = true →
      ∃ re, Event.exportMediaSet re ∈ (backupWorker su ch nsGroups pw abort elapsed).2.trace) ∧
    (su.exportMediaSet.getD false = false → su.ejectMedia.getD false = true →
      ∃ re, Event.ejectMedia re ∈ (backupWorker su ch nsGroups pw abort elapsed).2.trace) ∧
    (backupWorker su ch nsGroups pw abort elapsed).2.summary.usedTapes = none ∧
    (backupWorker su ch nsGroups pw abort elapsed).2.summary.duration = none := by
  have WS := backupWorker_spec su ch nsGroups pw abort elapsed
  obtain ⟨herr, hcm, hex, hej⟩ := WS.jobErr h
  obtain ⟨hu, hd, -⟩ := WS.errNone herr
  exact ⟨herr, hcm, hex, hej, hu, hd⟩

def c10Su : Setup :=
  { latestOnly := none, exportMediaSet := none, ejectMedia := some true, groupFilter := none }

def c10S : Snapshot :=
  { time := 8, finished := true, read := .openErr, spawn := .ok (),
    chunks := [], chunkResp := [], joinOk := true }

def c10G : Group := { ns := "ns", gid := { ty := "vm", id := "100" }, snaps := [c10S] }

def c10Ns : List (List Group) := [[c10G]]

def c10Pw : PoolWriterOracle :=
  { initResp := .ok (), loadResp := [.ok 1], fullResp := [],
    snapResp := [], catalogResp := [.ok true], commitResp := .ok (),
    exportResp := .ok (), ejectResp := .ok (), usedLabels := .ok ["tape1"],
    contains := fun _ => false }

set_option maxHeartbeats 2000000 in
/-- Witness for C10: a run whose only snapshot is unreadable, with eject
requested, fails with `jobErrors` after committing and ejecting, and its
summary has no used-tapes list and no duration. -/
theorem job_error_tail_actions_witness :
    (backupWorker c10Su ChangerSetup.noChanger c10Ns c10Pw false 0).1 =
      Except.error Err.jobErrors ∧
    ((backupWorker c10Su ChangerSetup.noChanger c10Ns c10Pw false 0).2.errors = true ∧
    Event.commit (.ok ()) ∈ (backupWorker c10Su ChangerSetup.noChanger c10Ns c10Pw false 0).2.trace ∧
    (c10Su.exportMediaSet.getD false = true →
      ∃ re, Event.exportMediaSet re ∈
        (backupWorker c10Su ChangerSetup.noChanger c10Ns c10Pw false 0).2.trace) ∧
    (c10Su.exportMediaSet.getD false = false → c10Su.ejectMedia.getD false = true →
      ∃ re, Event.ejectMedia re ∈
        (backupWorker c10Su ChangerSetup.noChanger c10Ns c10Pw false 0).2.trace) ∧
    (backupWorker c10Su ChangerSetup.noChanger c10Ns c10Pw false 0).2.summary.usedTapes = none ∧
    (backupWorker c10Su ChangerSetup.noChanger c10Ns c10Pw false 0).2.summary.duration = none) :=
  ⟨by decide, job_error_tail_actions c10Su ChangerSetup.noChanger c10Ns c10Pw false 0 (by decide)⟩

end CloudBackup
